import Mathlib

/-!
Verification of the multi-taxi planning model (`multi_taxi_planning.py`).

The Python module defines `TaxiProblem`, a deterministic planning problem on a
2D grid: several taxis move passengers from origins to destinations, with
fuel, capacity, walls (`'I'`) and gas stations (`'G'`).  States are Python
dicts serialized as JSON strings; actions are per-taxi atomic actions
(`wait` / `move` / `pick up` / `drop off` / `refuel`), combined into joint
actions (one per taxi) filtered for collisions.

This file gives a shallow embedding of that model:
* Python dicts (which preserve insertion order and have unique keys) are
  embedded as association lists `List (String × _)`;
* machine integers of the source are embedded as `Int` (fuel, capacity,
  counters) and `Nat` (grid coordinates, which the enumerator keeps in
  bounds);
* the heuristics, which return Python floats obtained from integer sums and
  exact divisions by integer counts, are embedded as `ℚ` (all values that
  occur are exact small rationals, so no floating point rounding is in play);
* the JSON serialization layer (only relevant to claim C8, which is about the
  `indent=3` / compact serialization mismatch) is embedded by a small JSON
  AST together with the two printers actually used by the source
  (`json.dumps(state, indent=3)` in `__init__` and `json.dumps(state)` in
  `result`).
-/

namespace TaxiProblem

/-- A grid cell position `(row, col)`, the Python pair `(x, y)`. -/
abbrev Pos := Nat × Nat

/-- The grid `self.map`: a list of rows of cell characters
(`'I'` wall, `'G'` gas station, anything else free). -/
abbrev Grid := List (List Char)

/-- `self.map[x][y]`.  The Python code only ever indexes in bounds (the move
enumerator guards with `x < rows` etc.), so the default returned out of
bounds (a blank, which is neither `'I'` nor `'G'`) is never relevant on the
states the search produces. -/
def cell (g : Grid) (x y : Nat) : Char :=
  ((g.getD x []).getD y ' ')

/-- A taxi record, with exactly the fields of the Python per-taxi dict:
`location`, `fuel`, `capacity` (remaining seats), the `MAX_FUEL` added at
construction, and the `passengers_on_taxi` list. -/
structure Taxi where
  location : Pos
  fuel : Int
  capacity : Int
  MAX_FUEL : Int
  passengers_on_taxi : List String
deriving DecidableEq

/-- A passenger record, with exactly the fields of the Python per-passenger
dict: the immutable `location` (origin) and `destination`, and the
`is_picked`, `is_arrived`, `current_location` fields added at construction. -/
structure Passenger where
  location : Pos
  destination : Pos
  is_picked : Bool
  is_arrived : Bool
  current_location : Pos
deriving DecidableEq

/-- The search state: the Python state dict.  Python dicts preserve insertion
order and have unique keys, so they are embedded as association lists. -/
structure State where
  taxis : List (String × Taxi)
  passengers : List (String × Passenger)
  num_of_undelivered : Int
  num_of_unpicked : Int
  num_of_picked_undelivered : Int
deriving DecidableEq

/-- An atomic per-taxi action: the tagged tuples
`('wait', taxi)`, `('move', taxi, (x, y))`, `('pick up', taxi, passenger)`,
`('drop off', taxi, passenger)`, `('refuel', taxi)` of the source. -/
inductive TaxiAction where
  | wait (taxi : String)
  | move (taxi : String) (target : Pos)
  | pick_up (taxi : String) (passenger : String)
  | drop_off (taxi : String) (passenger : String)
  | refuel (taxi : String)
deriving DecidableEq

/-- The taxi name carried by an atomic action (`tax_act[1]` in the source). -/
def TaxiAction.taxi_of : TaxiAction → String
  | .wait t => t
  | .move t _ => t
  | .pick_up t _ => t
  | .drop_off t _ => t
  | .refuel t => t

/-- The passenger targeted by a pick up / drop off action, if any. -/
def TaxiAction.target_of : TaxiAction → Option String
  | .pick_up _ p => some p
  | .drop_off _ p => some p
  | _ => none

/-- A placeholder taxi record, used only to totalize dictionary lookups that
the Python code performs on keys that are always present. -/
def dummyTaxi : Taxi :=
  { location := (0, 0), fuel := 0, capacity := 0, MAX_FUEL := 0,
    passengers_on_taxi := [] }

/-- Keyed update of an embedded Python dict (`d[name] = f(d[name])`): the
entry with the given key is rewritten, all other entries are untouched. -/
def updAssoc {α : Type} (l : List (String × α)) (name : String) (f : α → α) :
    List (String × α) :=
  l.map fun x => if x.1 = name then (x.1, f x.2) else x

/-- Keyed update of the taxi dict: `state['taxis'][name] = f(...)`. -/
def updTaxi (ts : List (String × Taxi)) (name : String) (f : Taxi → Taxi) :
    List (String × Taxi) :=
  updAssoc ts name f

/-- Keyed update of the passenger dict: `state['passengers'][name] = f(...)`. -/
def updPassenger (ps : List (String × Passenger)) (name : String)
    (f : Passenger → Passenger) : List (String × Passenger) :=
  updAssoc ps name f

/-- The atomic actions of one taxi, in the enumeration order of the source
(`actions`, lines 71-107): `wait`, then the four moves guarded by fuel,
bounds and walls, then pick ups guarded by capacity / not-picked /
co-location with the passenger's `location` field, then drop offs guarded by
being aboard and co-location with the destination, then `refuel` at a gas
station. -/
def taxi_atomic_actions (g : Grid) (s : State) (taxi : String) (t : Taxi) :
    List TaxiAction :=
  let rows := g.length - 1
  let cols := (g.headD []).length - 1
  let x := t.location.1
  let y := t.location.2
  [TaxiAction.wait taxi]
  ++ (if 0 < t.fuel then
        (if x < rows ∧ cell g (x + 1) y ≠ 'I' then
          [TaxiAction.move taxi (x + 1, y)] else [])
        ++ (if 1 ≤ x ∧ cell g (x - 1) y ≠ 'I' then
          [TaxiAction.move taxi (x - 1, y)] else [])
        ++ (if y < cols ∧ cell g x (y + 1) ≠ 'I' then
          [TaxiAction.move taxi (x, y + 1)] else [])
        ++ (if 1 ≤ y ∧ cell g x (y - 1) ≠ 'I' then
          [TaxiAction.move taxi (x, y - 1)] else [])
      else [])
  ++ (if 0 < t.capacity then
        s.passengers.filterMap fun np =>
          if np.2.is_picked = false ∧ x = np.2.location.1 ∧ y = np.2.location.2
          then some (TaxiAction.pick_up taxi np.1) else none
      else [])
  ++ (s.passengers.filterMap fun np =>
        if np.1 ∈ t.passengers_on_taxi
            ∧ x = np.2.destination.1 ∧ y = np.2.destination.2
        then some (TaxiAction.drop_off taxi np.1) else none)
  ++ (if cell g x y = 'G' then [TaxiAction.refuel taxi] else [])

/-- `itertools.product`: all ways of choosing one element from each list, the
rightmost factor varying fastest. -/
def product {α : Type} : List (List α) → List (List α)
  | [] => [[]]
  | l :: ls => l.flatMap fun a => (product ls).map (a :: ·)

/-- The post-step occupancy of a taxi performing action `a`: its move target
for a `move`, its current location otherwise (source lines 118-122).  The
source encodes a position as the string `' '.join(map(str, loc))`, e.g.
`"2 0"`; that encoding is injective on pairs of natural coordinates (decimal
digit strings contain no space), so we embed the key as the position pair
itself. -/
def post_location (s : State) (a : TaxiAction) : Pos :=
  match a with
  | .move _ tgt => tgt
  | _ => ((s.taxis.lookup a.taxi_of).getD dummyTaxi).location

/-- `TaxiProblem.actions`: for a single taxi, the tuple of its atomic
actions; for any other number of taxis, the Cartesian product of per-taxi
action lists filtered by the no-collision condition `locations_count ==
len(location_set)` (the iteration-with-`remove` of the source walks a copy
of the product list and removes exactly the failing joint actions, which is
a filter since the product has no duplicate entries). -/
def actions (g : Grid) (s : State) :
    List TaxiAction ⊕ List (List TaxiAction) :=
  let taxis_action := s.taxis.map fun nt => taxi_atomic_actions g s nt.1 nt.2
  if taxis_action.length = 1 then
    Sum.inl (taxis_action.headD [])
  else
    Sum.inr ((product taxis_action).filter fun ja =>
      ja.length = ((ja.map fun a => post_location s a).dedup).length)

/-- `TaxiProblem.apply_taxi_action`: apply one atomic action.  `move` sets
the location, decrements fuel and drags every aboard passenger's
`current_location` along; `pick up` / `drop off` update capacity, the aboard
list (`list.remove` removes the first occurrence, as `List.erase` does), the
flags and the three counters; `refuel` restores `MAX_FUEL`. -/
def apply_taxi_action (s : State) (a : TaxiAction) : State :=
  match a with
  | .wait _ => s
  | .move taxi tgt =>
    let carried := ((s.taxis.lookup taxi).getD dummyTaxi).passengers_on_taxi
    { s with
      taxis := updTaxi s.taxis taxi fun t =>
        { t with location := tgt, fuel := t.fuel - 1 },
      passengers := carried.foldl
        (fun ps p => updPassenger ps p fun q => { q with current_location := tgt })
        s.passengers }
  | .pick_up taxi p =>
    { s with
      taxis := updTaxi s.taxis taxi fun t =>
        { t with capacity := t.capacity - 1,
                 passengers_on_taxi := t.passengers_on_taxi ++ [p] },
      passengers := updPassenger s.passengers p fun q => { q with is_picked := true },
      num_of_unpicked := s.num_of_unpicked - 1,
      num_of_picked_undelivered := s.num_of_picked_undelivered + 1 }
  | .drop_off taxi p =>
    { s with
      taxis := updTaxi s.taxis taxi fun t =>
        { t with capacity := t.capacity + 1,
                 passengers_on_taxi := t.passengers_on_taxi.erase p },
      passengers := updPassenger s.passengers p fun q => { q with is_arrived := true },
      num_of_undelivered := s.num_of_undelivered - 1,
      num_of_picked_undelivered := s.num_of_picked_undelivered - 1 }
  | .refuel taxi =>
    { s with taxis := updTaxi s.taxis taxi fun t => { t with fuel := t.MAX_FUEL } }

/-- `TaxiProblem.result`: a single atomic action (whose first tuple entry is
a string) is applied directly; a joint action applies its per-taxi atomic
actions in order.  The JSON round trip of the source
(`loads` / mutate / `dumps`) is the identity on the structured state. -/
def result (s : State) (action : TaxiAction ⊕ List TaxiAction) : State :=
  match action with
  | .inl a => apply_taxi_action s a
  | .inr ja => ja.foldl apply_taxi_action s

/-- `TaxiProblem.goal_test`: no undelivered passengers remain. -/
def goal_test (s : State) : Bool :=
  s.num_of_undelivered = 0

/-- `TaxiProblem.__init__`: build the initial state from the input dicts,
adding `MAX_FUEL` (a copy of the initial fuel), the empty
`passengers_on_taxi` lists and the passenger status fields, and initializing
the three counters. -/
structure TaxiInput where
  location : Pos
  fuel : Int
  capacity : Int
deriving DecidableEq

/-- A passenger input record: the `location` / `destination` dict of the
problem input. -/
structure PassengerInput where
  location : Pos
  destination : Pos
deriving DecidableEq

/-- The initial state built by `TaxiProblem.__init__` from the input. -/
def initial_state (taxis : List (String × TaxiInput))
    (passengers : List (String × PassengerInput)) : State where
  taxis := taxis.map fun nt =>
    (nt.1, { location := nt.2.location, fuel := nt.2.fuel,
             capacity := nt.2.capacity, MAX_FUEL := nt.2.fuel,
             passengers_on_taxi := [] })
  passengers := passengers.map fun np =>
    (np.1, { location := np.2.location, destination := np.2.destination,
             is_picked := false, is_arrived := false,
             current_location := np.2.location })
  num_of_undelivered := passengers.length
  num_of_unpicked := passengers.length
  num_of_picked_undelivered := 0

/-- The joint steps available from a state: in the single-taxi branch each
returned atomic action is one step (applied directly by `result`), embedded
as a singleton list; in the product branch each returned joint action is one
step. -/
def joint_steps (g : Grid) (s : State) : List (List TaxiAction) :=
  match actions g s with
  | .inl atomics => atomics.map fun a => [a]
  | .inr joints => joints

/-- One search step: apply a joint action enumerated by `actions`. -/
def Step (g : Grid) (s s' : State) : Prop :=
  ∃ ja ∈ joint_steps g s, s' = ja.foldl apply_taxi_action s

/-- States reachable from `init` through legal joint actions. -/
inductive Reachable (g : Grid) (init : State) : State → Prop
  | refl : Reachable g init init
  | tail {s s' : State} : Reachable g init s → Step g s s' → Reachable g init s'

/-- Run an explicit plan, checking each joint action against the enumerator;
used to exhibit concrete reachable states. -/
def run_plan (g : Grid) (s : State) : List (List TaxiAction) → Option State
  | [] => some s
  | ja :: rest =>
    if ja ∈ joint_steps g s then
      run_plan g (ja.foldl apply_taxi_action s) rest
    else none

theorem reachable_of_run_plan {g : Grid} {s s' : State} :
    ∀ {plan : List (List TaxiAction)}, run_plan g s plan = some s' →
      ∀ {init : State}, Reachable g init s → Reachable g init s'
  | [], hrun, _, hreach => by
    simp [run_plan] at hrun; exact hrun ▸ hreach
  | ja :: rest, hrun, _, hreach => by
    by_cases hmem : ja ∈ joint_steps g s
    · simp only [run_plan, if_pos hmem] at hrun
      exact reachable_of_run_plan hrun (hreach.tail ⟨ja, hmem, rfl⟩)
    · simp [run_plan, if_neg hmem] at hrun

/-- `TaxiProblem.manhattan_distance`. -/
def manhattan_distance (p q : Pos) : Nat :=
  ((p.1 : Int) - q.1).natAbs + ((p.2 : Int) - q.2).natAbs

/-- `TaxiProblem.find_distance_of_closest_taxi`: fold over the taxi dict with
the sentinel `100000`.  The source also returns the name of the closest taxi
in a pair, but its only caller `h` uses component `[0]` (the distance), so we
embed the distance. -/
def find_distance_of_closest_taxi (loc : Pos) (s : State) : Nat :=
  s.taxis.foldl
    (fun m nt =>
      let d := manhattan_distance loc nt.2.location
      if d < m then d else m)
    100000

/-- `TaxiProblem.h`: 0 at a goal state, otherwise the average remaining
distance to destination over undelivered passengers, plus (when unpicked
passengers remain) the average distance from unpicked passengers to the
closest taxi, a capacity-shortfall term when positive, and the two counters.
The source accumulates the two distance sums in one loop over the passenger
dict; the two independent folds below compute the same sums. -/
def h (s : State) : ℚ :=
  if s.num_of_undelivered = 0 then 0
  else
    let sum_of_dis_to_dest : ℚ := s.passengers.foldl
      (fun acc np =>
        if np.2.is_arrived = false then
          acc + (manhattan_distance np.2.current_location np.2.destination : ℚ)
        else acc) 0
    let sum_of_dis_to_closest_taxi : ℚ := s.passengers.foldl
      (fun acc np =>
        if np.2.is_picked = false then
          acc + (find_distance_of_closest_taxi np.2.current_location s : ℚ)
        else acc) 0
    let avg_of_dis_to_dest := sum_of_dis_to_dest / (s.num_of_undelivered : ℚ)
    if 0 < s.num_of_unpicked then
      let avg_of_dis_to_closest_taxi :=
        sum_of_dis_to_closest_taxi / (s.num_of_unpicked : ℚ)
      let sum_capacity : Int := s.taxis.foldl (fun acc nt => acc + nt.2.capacity) 0
      let diff_cap_unpicked_pass := s.num_of_unpicked - sum_capacity
      if 0 < diff_cap_unpicked_pass then
        avg_of_dis_to_dest + avg_of_dis_to_closest_taxi
          + (diff_cap_unpicked_pass : ℚ)
          + (s.num_of_undelivered : ℚ) + (s.num_of_unpicked : ℚ)
      else
        avg_of_dis_to_dest + avg_of_dis_to_closest_taxi
          + (s.num_of_undelivered : ℚ) + (s.num_of_unpicked : ℚ)
    else
      avg_of_dis_to_dest + (s.num_of_undelivered : ℚ)

/-- `TaxiProblem.h_1`: `(2 * unpicked + picked_undelivered) / num_taxis`. -/
def h_1 (s : State) : ℚ :=
  ((s.num_of_unpicked * 2 + s.num_of_picked_undelivered : Int) : ℚ)
    / (s.taxis.length : ℚ)

/-- `TaxiProblem.h_2`: the sum over all passengers (delivered ones included)
of the origin-to-destination plus current-location-to-destination Manhattan
distances, divided by the number of taxis. -/
def h_2 (s : State) : ℚ :=
  let sum_of_initial_distance : ℚ := s.passengers.foldl
    (fun acc np =>
      acc + (manhattan_distance np.2.destination np.2.location : ℚ)) 0
  let sum_of_curr_distance : ℚ := s.passengers.foldl
    (fun acc np =>
      acc + (manhattan_distance np.2.destination np.2.current_location : ℚ)) 0
  (sum_of_initial_distance + sum_of_curr_distance) / (s.taxis.length : ℚ)

/-! ### Association-list dictionary lemmas -/


theorem updAssoc_cons {α : Type} (k : String) (b : α) (xs : List (String × α))
    (name : String) (f : α → α) :
    updAssoc ((k, b) :: xs) name f
      = (if k = name then (k, f b) else (k, b)) :: updAssoc xs name f := by
  simp only [updAssoc, List.map_cons]

theorem lookup_eq_some_of_mem {α : Type} {l : List (String × α)} {n : String}
    {a : α} (hnd : (l.map Prod.fst).Nodup) (hmem : (n, a) ∈ l) :
    l.lookup n = some a := by
  induction l with
  | nil => simp at hmem
  | cons x xs ih =>
    obtain ⟨k, b⟩ := x
    simp only [List.map_cons, List.nodup_cons] at hnd
    rcases List.mem_cons.1 hmem with hx | hx
    · cases hx
      simp [List.lookup_cons]
    · have hne : n ≠ k := by
        rintro rfl
        exact hnd.1 (List.mem_map.2 ⟨(n, a), hx, rfl⟩)
      simp [List.lookup_cons, beq_false_of_ne hne, ih hnd.2 hx]

theorem mem_of_lookup_eq_some {α : Type} {l : List (String × α)} {n : String}
    {a : α} (hl : l.lookup n = some a) : (n, a) ∈ l := by
  induction l with
  | nil => simp [List.lookup_nil] at hl
  | cons x xs ih =>
    obtain ⟨k, b⟩ := x
    by_cases hk : n = k
    · subst hk
      simp only [List.lookup_cons, beq_self_eq_true] at hl
      cases hl
      exact List.mem_cons_self _ _
    · simp only [List.lookup_cons, beq_false_of_ne hk] at hl
      exact List.mem_cons_of_mem _ (ih hl)

theorem map_fst_updAssoc {α : Type} (l : List (String × α)) (name : String)
    (f : α → α) : (updAssoc l name f).map Prod.fst = l.map Prod.fst := by
  induction l with
  | nil => rfl
  | cons x xs ih =>
    obtain ⟨k, b⟩ := x
    rw [updAssoc_cons]
    by_cases hk : k = name <;> simp [hk, ih]

theorem lookup_updAssoc {α : Type} (l : List (String × α)) (name : String)
    (f : α → α) (n : String) :
    (updAssoc l name f).lookup n
      = if n = name then (l.lookup n).map f else l.lookup n := by
  induction l with
  | nil => simp [updAssoc, List.lookup_nil]
  | cons x xs ih =>
    obtain ⟨k, b⟩ := x
    rw [updAssoc_cons]
    by_cases hk : k = name
    · subst hk
      by_cases hn : n = k
      · subst hn
        simp [List.lookup_cons]
      · simp [List.lookup_cons, beq_false_of_ne hn, ih, hn]
    · by_cases hn : n = k
      · subst hn
        have hnn : ¬n = name := hk
        simp [hk, List.lookup_cons, hnn]
      · simp [hk, List.lookup_cons, beq_false_of_ne hn, ih]

theorem updAssoc_of_not_mem {α : Type} {l : List (String × α)} {name : String}
    (hnm : name ∉ l.map Prod.fst) (f : α → α) : updAssoc l name f = l := by
  induction l with
  | nil => rfl
  | cons x xs ih =>
    obtain ⟨k, b⟩ := x
    simp only [List.map_cons, List.mem_cons, not_or] at hnm
    have hk : ¬k = name := fun hc => hnm.1 hc.symm
    rw [updAssoc_cons, if_neg hk, ih hnm.2]

theorem mem_updAssoc {α : Type} {l : List (String × α)} {name : String}
    {f : α → α} {x : String × α} :
    x ∈ updAssoc l name f ↔
      ∃ y ∈ l, x = if y.1 = name then (y.1, f y.2) else y := by
  simp only [updAssoc, List.mem_map]
  constructor
  · rintro ⟨y, hy, rfl⟩; exact ⟨y, hy, rfl⟩
  · rintro ⟨y, hy, rfl⟩; exact ⟨y, hy, rfl⟩

theorem countP_updAssoc_of_lookup {α : Type} {l : List (String × α)}
    {name : String} {a₀ : α} (hnd : (l.map Prod.fst).Nodup)
    (hl : l.lookup name = some a₀) (f : α → α) (pred : α → Bool) :
    ((updAssoc l name f).countP (fun x => pred x.2) : Int)
      = l.countP (fun x => pred x.2)
        + (if pred (f a₀) then 1 else 0) - (if pred a₀ then 1 else 0) := by
  induction l with
  | nil => simp [List.lookup_nil] at hl
  | cons x xs ih =>
    obtain ⟨k, b⟩ := x
    simp only [List.map_cons, List.nodup_cons] at hnd
    rw [updAssoc_cons]
    by_cases hk : name = k
    · subst hk
      simp only [List.lookup_cons, beq_self_eq_true] at hl
      cases hl
      rw [if_pos rfl, updAssoc_of_not_mem hnd.1]
      simp only [List.countP_cons]
      by_cases h1 : pred (f a₀) <;> by_cases h2 : pred a₀ <;>
        simp [h1, h2] <;> push_cast <;> ring
    · have hkn : ¬k = name := fun hc => hk hc.symm
      simp only [List.lookup_cons, beq_false_of_ne hk] at hl
      rw [if_neg hkn]
      simp only [List.countP_cons]
      have hrec := ih hnd.2 hl
      by_cases hb : pred b <;> simp only [hb, if_pos, if_neg, if_true, if_false] <;>
        push_cast at hrec ⊢ <;> omega

theorem countP_updAssoc_invariant {α : Type} (l : List (String × α))
    (name : String) {f : α → α} {pred : α → Bool}
    (hf : ∀ a, pred (f a) = pred a) :
    (updAssoc l name f).countP (fun x => pred x.2)
      = l.countP (fun x => pred x.2) := by
  induction l with
  | nil => rfl
  | cons x xs ih =>
    obtain ⟨k, b⟩ := x
    rw [updAssoc_cons]
    by_cases hk : k = name <;> simp [hk, List.countP_cons, ih, hf]

/-! ### Cartesian product membership -/

theorem mem_product {α : Type} :
    ∀ {ls : List (List α)} {ja : List α},
      ja ∈ product ls ↔ List.Forall₂ (fun a l => a ∈ l) ja ls := by
  intro ls
  induction ls with
  | nil =>
    intro ja
    simp only [product, List.mem_singleton, List.forall₂_nil_right_iff]
  | cons l ls ih =>
    intro ja
    simp only [product, List.mem_flatMap, List.mem_map]
    constructor
    · rintro ⟨a, ha, ja', hja', rfl⟩
      exact List.Forall₂.cons ha (ih.1 hja')
    · intro hf
      rw [List.forall₂_cons_right_iff] at hf
      obtain ⟨a, ja', ha, hja', rfl⟩ := hf
      exact ⟨a, ha, ja', ih.2 hja', rfl⟩

/-! ### Inversion lemmas for the per-taxi action enumerator -/

theorem mem_if_nil {α : Type} {c : Prop} [Decidable c] {l : List α} {a : α} :
    (a ∈ if c then l else []) ↔ c ∧ a ∈ l := by
  split <;> simp_all

theorem taxi_of_mem_atomic {g : Grid} {s : State} {taxi : String} {t : Taxi}
    {a : TaxiAction} (ha : a ∈ taxi_atomic_actions g s taxi t) :
    a.taxi_of = taxi := by
  simp only [taxi_atomic_actions, List.mem_append, List.mem_cons,
    List.not_mem_nil, or_false, mem_if_nil, List.mem_filterMap,
    List.mem_singleton] at ha
  rcases ha with ((((ha | ha) | ha) | ha) | ha)
  · subst ha; rfl
  · rcases ha with ⟨-, ((ha | ha) | ha) | ha⟩ <;>
      rcases ha with ⟨-, ha⟩ <;> subst ha <;> rfl
  · obtain ⟨-, np, -, ha⟩ := ha
    split at ha
    · cases ha; rfl
    · cases ha
  · obtain ⟨np, -, ha⟩ := ha
    split at ha
    · cases ha; rfl
    · cases ha
  · obtain ⟨-, ha⟩ := ha; subst ha; rfl

theorem pick_mem_atomic_iff {g : Grid} {s : State} {taxi : String} {t : Taxi}
    {n p : String} :
    TaxiAction.pick_up n p ∈ taxi_atomic_actions g s taxi t ↔
      n = taxi ∧ 0 < t.capacity
        ∧ ∃ q, (p, q) ∈ s.passengers ∧ q.is_picked = false
            ∧ t.location.1 = q.location.1 ∧ t.location.2 = q.location.2 := by
  simp only [taxi_atomic_actions, List.mem_append, List.mem_cons,
    List.not_mem_nil, or_false, mem_if_nil, List.mem_filterMap,
    List.mem_singleton]
  constructor
  · rintro ((((ha | ha) | ha) | ha) | ha)
    · cases ha
    · rcases ha with ⟨-, ((ha | ha) | ha) | ha⟩ <;>
        rcases ha with ⟨-, ha⟩ <;> cases ha
    · obtain ⟨hcap, np, hnp, ha⟩ := ha
      split at ha
      · rename_i hcond
        cases ha
        exact ⟨rfl, hcap, np.2, hnp, hcond.1, hcond.2.1, hcond.2.2⟩
      · cases ha
    · obtain ⟨np, -, ha⟩ := ha
      split at ha <;> cases ha
    · obtain ⟨-, ha⟩ := ha; cases ha
  · rintro ⟨rfl, hcap, q, hq, hpk, hx, hy⟩
    refine Or.inl (Or.inl (Or.inr ⟨hcap, (p, q), hq, ?_⟩))
    rw [if_pos ⟨hpk, hx, hy⟩]

theorem drop_mem_atomic_iff {g : Grid} {s : State} {taxi : String} {t : Taxi}
    {n p : String} :
    TaxiAction.drop_off n p ∈ taxi_atomic_actions g s taxi t ↔
      n = taxi ∧ p ∈ t.passengers_on_taxi
        ∧ ∃ q, (p, q) ∈ s.passengers
            ∧ t.location.1 = q.destination.1 ∧ t.location.2 = q.destination.2 := by
  simp only [taxi_atomic_actions, List.mem_append, List.mem_cons,
    List.not_mem_nil, or_false, mem_if_nil, List.mem_filterMap,
    List.mem_singleton]
  constructor
  · rintro ((((ha | ha) | ha) | ha) | ha)
    · cases ha
    · rcases ha with ⟨-, ((ha | ha) | ha) | ha⟩ <;>
        rcases ha with ⟨-, ha⟩ <;> cases ha
    · obtain ⟨-, np, -, ha⟩ := ha
      split at ha <;> cases ha
    · obtain ⟨np, hnp, ha⟩ := ha
      split at ha
      · rename_i hcond
        cases ha
        exact ⟨rfl, hcond.1, np.2, hnp, hcond.2.1, hcond.2.2⟩
      · cases ha
    · obtain ⟨-, ha⟩ := ha; cases ha
  · rintro ⟨rfl, hab, q, hq, hx, hy⟩
    refine Or.inl (Or.inr ⟨(p, q), hq, ?_⟩)
    rw [if_pos ⟨hab, hx, hy⟩]

theorem move_mem_atomic {g : Grid} {s : State} {taxi : String} {t : Taxi}
    {n : String} {tgt : Pos}
    (ha : TaxiAction.move n tgt ∈ taxi_atomic_actions g s taxi t) :
    n = taxi ∧ 0 < t.fuel := by
  simp only [taxi_atomic_actions, List.mem_append, List.mem_cons,
    List.not_mem_nil, or_false, mem_if_nil, List.mem_filterMap,
    List.mem_singleton] at ha
  rcases ha with ((((ha | ha) | ha) | ha) | ha)
  · cases ha
  · obtain ⟨hfuel, ha⟩ := ha
    rcases ha with ((ha | ha) | ha) | ha <;>
      rcases ha with ⟨-, ha⟩ <;> cases ha <;> exact ⟨rfl, hfuel⟩
  · obtain ⟨-, np, -, ha⟩ := ha
    split at ha <;> cases ha
  · obtain ⟨np, -, ha⟩ := ha
    split at ha <;> cases ha
  · obtain ⟨-, ha⟩ := ha; cases ha

theorem refuel_mem_atomic {g : Grid} {s : State} {taxi : String} {t : Taxi}
    {n : String}
    (ha : TaxiAction.refuel n ∈ taxi_atomic_actions g s taxi t) :
    n = taxi ∧ cell g t.location.1 t.location.2 = 'G' := by
  simp only [taxi_atomic_actions, List.mem_append, List.mem_cons,
    List.not_mem_nil, or_false, mem_if_nil, List.mem_filterMap,
    List.mem_singleton] at ha
  rcases ha with ((((ha | ha) | ha) | ha) | ha)
  · cases ha
  · rcases ha with ⟨-, ((ha | ha) | ha) | ha⟩ <;>
      rcases ha with ⟨-, ha⟩ <;> cases ha
  · obtain ⟨-, np, -, ha⟩ := ha
    split at ha <;> cases ha
  · obtain ⟨np, -, ha⟩ := ha
    split at ha <;> cases ha
  · obtain ⟨hg, ha⟩ := ha; cases ha; exact ⟨rfl, hg⟩

/-! ### Well-formedness invariant of reachable states -/

/-- The three counters agree with direct counts over the passenger dict. -/
def counters_ok (s : State) : Prop :=
  s.num_of_unpicked = (s.passengers.countP fun np => !np.2.is_picked : Nat)
  ∧ s.num_of_undelivered = (s.passengers.countP fun np => !np.2.is_arrived : Nat)
  ∧ s.num_of_picked_undelivered
      = (s.passengers.countP fun np => np.2.is_picked && !np.2.is_arrived : Nat)

/-- Structural well-formedness of a state, preserved by every legal joint
step: unique dict keys, counters consistent with the passenger flags,
`is_arrived → is_picked`, unpicked passengers still at their origin, aboard
lists made of picked undelivered passengers without duplicates and with a
unique carrier, and fuel within `[0, MAX_FUEL]`. -/
structure WF (s : State) : Prop where
  keys_taxis : (s.taxis.map Prod.fst).Nodup
  keys_passengers : (s.passengers.map Prod.fst).Nodup
  counters : counters_ok s
  arrived_picked : ∀ np ∈ s.passengers, np.2.is_arrived = true → np.2.is_picked = true
  unpicked_loc : ∀ np ∈ s.passengers, np.2.is_picked = false →
      np.2.current_location = np.2.location
  aboard_flags : ∀ nt ∈ s.taxis, ∀ p ∈ nt.2.passengers_on_taxi,
      ∃ q, s.passengers.lookup p = some q ∧ q.is_picked = true ∧ q.is_arrived = false
  aboard_nodup : ∀ nt ∈ s.taxis, nt.2.passengers_on_taxi.Nodup
  carrier_unique : ∀ a ∈ s.taxis, ∀ b ∈ s.taxis, ∀ p : String,
      p ∈ a.2.passengers_on_taxi → p ∈ b.2.passengers_on_taxi → a.1 = b.1
  fuel_bounds : ∀ nt ∈ s.taxis, 0 ≤ nt.2.fuel ∧ nt.2.fuel ≤ nt.2.MAX_FUEL

/-- The apply-time precondition of one atomic action: exactly what
`apply_taxi_action` needs so that its blind counter updates stay consistent
(the enumerator guarantees it on the state it was called on). -/
def ok_at (s : State) : TaxiAction → Prop
  | .wait _ => True
  | .move n _ => ∃ t, s.taxis.lookup n = some t ∧ 0 < t.fuel
  | .refuel _ => True
  | .pick_up _ p => ∃ q, s.passengers.lookup p = some q ∧ q.is_picked = false
  | .drop_off n p =>
      (∃ t, s.taxis.lookup n = some t ∧ p ∈ t.passengers_on_taxi)
      ∧ ∃ q, s.passengers.lookup p = some q ∧ q.is_picked = true ∧ q.is_arrived = false

/-- The fields of a passenger record that no `move` can change: flags,
origin and destination. -/
def pstat (q : Passenger) : Bool × Bool × Pos × Pos :=
  (q.is_picked, q.is_arrived, q.location, q.destination)

/-! ### Frame lemmas for `apply_taxi_action` -/

theorem map_fst_foldl_updAssoc {α : Type} (names : List String)
    (F : String → α → α) (l : List (String × α)) :
    ((names.foldl (fun acc n => updAssoc acc n (F n)) l).map Prod.fst)
      = l.map Prod.fst := by
  induction names generalizing l with
  | nil => rfl
  | cons n ns ih => rw [List.foldl_cons, ih, map_fst_updAssoc]

theorem lookup_foldl_updAssoc_map {α β : Type} (names : List String)
    (F : String → α → α) (l : List (String × α)) (n : String)
    (proj : α → β) (hproj : ∀ m a, proj (F m a) = proj a) :
    ((names.foldl (fun acc m => updAssoc acc m (F m)) l).lookup n).map proj
      = (l.lookup n).map proj := by
  induction names generalizing l with
  | nil => rfl
  | cons m ms ih =>
    rw [List.foldl_cons, ih, lookup_updAssoc]
    split
    · cases l.lookup n <;> simp [hproj]
    · rfl

theorem taxis_map_fst_apply (s : State) (a : TaxiAction) :
    (apply_taxi_action s a).taxis.map Prod.fst = s.taxis.map Prod.fst := by
  cases a <;> simp [apply_taxi_action, updTaxi, map_fst_updAssoc]

theorem passengers_map_fst_apply (s : State) (a : TaxiAction) :
    (apply_taxi_action s a).passengers.map Prod.fst
      = s.passengers.map Prod.fst := by
  cases a with
  | move n tgt =>
    simp only [apply_taxi_action, updPassenger]
    exact map_fst_foldl_updAssoc _ _ _
  | pick_up n p => simp [apply_taxi_action, updPassenger, map_fst_updAssoc]
  | drop_off n p => simp [apply_taxi_action, updPassenger, map_fst_updAssoc]
  | wait n => rfl
  | refuel n => rfl

theorem lookup_taxis_apply_ne {s : State} {a : TaxiAction} {n : String}
    (hne : n ≠ a.taxi_of) :
    (apply_taxi_action s a).taxis.lookup n = s.taxis.lookup n := by
  cases a <;>
    simp_all [apply_taxi_action, updTaxi, lookup_updAssoc, TaxiAction.taxi_of]

theorem lookup_passengers_apply_pstat {s : State} {a : TaxiAction} {p : String}
    (hne : a.target_of ≠ some p) :
    ((apply_taxi_action s a).passengers.lookup p).map pstat
      = (s.passengers.lookup p).map pstat := by
  cases a with
  | wait n => rfl
  | refuel n => rfl
  | move n tgt =>
    simp only [apply_taxi_action, updPassenger]
    exact lookup_foldl_updAssoc_map _ _ _ _ _ (fun _ _ => rfl)
  | pick_up n p' =>
    have hp : p ≠ p' := by
      rintro rfl; exact hne rfl
    simp [apply_taxi_action, updPassenger, lookup_updAssoc, hp]
  | drop_off n p' =>
    have hp : p ≠ p' := by
      rintro rfl; exact hne rfl
    simp [apply_taxi_action, updPassenger, lookup_updAssoc, hp]

theorem lookup_some_of_pstat_eq {l₁ l₂ : List (String × Passenger)} {p : String}
    {q : Passenger}
    (heq : (l₁.lookup p).map pstat = (l₂.lookup p).map pstat)
    (hq : l₂.lookup p = some q) :
    ∃ q', l₁.lookup p = some q' ∧ q'.is_picked = q.is_picked
      ∧ q'.is_arrived = q.is_arrived ∧ q'.location = q.location
      ∧ q'.destination = q.destination := by
  rw [hq] at heq
  cases hl : l₁.lookup p with
  | none => rw [hl] at heq; simp at heq
  | some q' =>
    rw [hl] at heq
    simp only [Option.map_some', Option.some.injEq, pstat, Prod.mk.injEq] at heq
    exact ⟨q', rfl, heq.1, heq.2.1, heq.2.2.1, heq.2.2.2⟩

theorem ok_at_frame {s : State} {a b : TaxiAction}
    (hok : ok_at s b) (htaxi : b.taxi_of ≠ a.taxi_of)
    (htgt : ∀ p, b.target_of = some p → a.target_of ≠ some p) :
    ok_at (apply_taxi_action s a) b := by
  cases b with
  | wait n => trivial
  | refuel n => trivial
  | move n tgt =>
    obtain ⟨t, hl, hf⟩ := hok
    exact ⟨t, (lookup_taxis_apply_ne htaxi).trans hl, hf⟩
  | pick_up n p =>
    obtain ⟨q, hl, hpk⟩ := hok
    have hframe := lookup_passengers_apply_pstat (s := s) (a := a) (p := p)
      (htgt p rfl)
    obtain ⟨q', hl', h1, -⟩ := lookup_some_of_pstat_eq hframe hl
    exact ⟨q', hl', h1.trans hpk⟩
  | drop_off n p =>
    obtain ⟨⟨t, hl, hab⟩, q, hql, hpk, har⟩ := hok
    have hframe := lookup_passengers_apply_pstat (s := s) (a := a) (p := p)
      (htgt p rfl)
    obtain ⟨q', hql', h1, h2, -⟩ := lookup_some_of_pstat_eq hframe hql
    exact ⟨⟨t, (lookup_taxis_apply_ne htaxi).trans hl, hab⟩,
      q', hql', h1.trans hpk, h2.trans har⟩

theorem entry_updAssoc {α : Type} {l : List (String × α)} {name : String}
    {f : α → α} {x : String × α} (hx : x ∈ updAssoc l name f) :
    ∃ y ∈ l, x.1 = y.1
      ∧ ((y.1 ≠ name ∧ x.2 = y.2) ∨ (y.1 = name ∧ x.2 = f y.2)) := by
  obtain ⟨y, hy, hxy⟩ := mem_updAssoc.1 hx
  by_cases hc : y.1 = name
  · rw [if_pos hc] at hxy
    exact ⟨y, hy, by rw [hxy], Or.inr ⟨hc, by rw [hxy]⟩⟩
  · rw [if_neg hc] at hxy
    exact ⟨y, hy, by rw [hxy], Or.inl ⟨hc, by rw [hxy]⟩⟩

theorem mem_updAssoc_self {α : Type} {l : List (String × α)} {name : String}
    {a₀ : α} (hl : l.lookup name = some a₀) (f : α → α) :
    (updAssoc l name f).lookup name = some (f a₀) := by
  rw [lookup_updAssoc, if_pos rfl, hl]; rfl

theorem entry_foldl_setCur {names : List String} {tgt : Pos}
    {l : List (String × Passenger)} {x : String × Passenger}
    (hx : x ∈ names.foldl
      (fun acc n => updAssoc acc n
        (fun q => { q with current_location := tgt })) l) :
    ∃ y ∈ l, x.1 = y.1
      ∧ (x.2 = y.2
          ∨ (x.1 ∈ names ∧ x.2 = { y.2 with current_location := tgt })) := by
  induction names generalizing l with
  | nil => exact ⟨x, hx, rfl, Or.inl rfl⟩
  | cons n ns ih =>
    rw [List.foldl_cons] at hx
    obtain ⟨y, hy, h1, h2⟩ := ih hx
    obtain ⟨z, hz, hz1, hz2⟩ := entry_updAssoc hy
    refine ⟨z, hz, h1.trans hz1, ?_⟩
    rcases h2 with h2 | ⟨hmem, h2⟩
    · rcases hz2 with ⟨-, hz2⟩ | ⟨hzn, hz2⟩
      · exact Or.inl (h2.trans hz2)
      · refine Or.inr ⟨?_, h2.trans hz2⟩
        rw [h1, hz1, hzn]; exact List.mem_cons_self _ _
    · rcases hz2 with ⟨-, hz2⟩ | ⟨-, hz2⟩
      · exact Or.inr ⟨List.mem_cons_of_mem _ hmem, by rw [h2, hz2]⟩
      · refine Or.inr ⟨List.mem_cons_of_mem _ hmem, ?_⟩
        rw [h2, hz2]

theorem countP_foldl_updAssoc_invariant {α : Type} (names : List String)
    (F : String → α → α) (l : List (String × α)) {pred : α → Bool}
    (hF : ∀ n a, pred (F n a) = pred a) :
    ((names.foldl (fun acc n => updAssoc acc n (F n)) l).countP
        fun x => pred x.2)
      = l.countP fun x => pred x.2 := by
  induction names generalizing l with
  | nil => rfl
  | cons n ns ih =>
    rw [List.foldl_cons, ih, countP_updAssoc_invariant _ _ (hF n)]

/-! ### Preservation of `WF` by one atomic action -/

theorem aboard_flags_transfer {s : State} {ps' : List (String × Passenger)}
    (hwf : WF s)
    (hframe : ∀ p', (ps'.lookup p').map pstat
      = (s.passengers.lookup p').map pstat)
    {nt : String × Taxi} (hy : nt ∈ s.taxis) {p : String}
    (hp : p ∈ nt.2.passengers_on_taxi) :
    ∃ q, ps'.lookup p = some q ∧ q.is_picked = true ∧ q.is_arrived = false := by
  obtain ⟨q, hql, h1, h2⟩ := hwf.aboard_flags nt hy p hp
  obtain ⟨q', hl', e1, e2, -⟩ := lookup_some_of_pstat_eq (hframe p) hql
  exact ⟨q', hl', e1.trans h1, e2.trans h2⟩

theorem WF_apply_wait {s : State} {n : String} (hwf : WF s) :
    WF (apply_taxi_action s (.wait n)) := hwf

theorem taxis_apply_refuel {s : State} {n : String} :
    (apply_taxi_action s (.refuel n)).taxis
      = updAssoc s.taxis n (fun t => { t with fuel := t.MAX_FUEL }) := rfl

theorem taxis_apply_move {s : State} {n : String} {tgt : Pos} :
    (apply_taxi_action s (.move n tgt)).taxis
      = updAssoc s.taxis n
          (fun t => { t with location := tgt, fuel := t.fuel - 1 }) := rfl

theorem passengers_apply_move {s : State} {n : String} {tgt : Pos} :
    (apply_taxi_action s (.move n tgt)).passengers
      = ((s.taxis.lookup n).getD dummyTaxi).passengers_on_taxi.foldl
          (fun ps p => updAssoc ps p
            (fun q => { q with current_location := tgt })) s.passengers := rfl

theorem taxis_apply_pick {s : State} {n p : String} :
    (apply_taxi_action s (.pick_up n p)).taxis
      = updAssoc s.taxis n
          (fun t => { t with
            capacity := t.capacity - 1
            passengers_on_taxi := t.passengers_on_taxi ++ [p] }) := rfl

theorem passengers_apply_pick {s : State} {n p : String} :
    (apply_taxi_action s (.pick_up n p)).passengers
      = updAssoc s.passengers p (fun q => { q with is_picked := true }) := rfl

theorem taxis_apply_drop {s : State} {n p : String} :
    (apply_taxi_action s (.drop_off n p)).taxis
      = updAssoc s.taxis n
          (fun t => { t with
            capacity := t.capacity + 1
            passengers_on_taxi := t.passengers_on_taxi.erase p }) := rfl

theorem passengers_apply_drop {s : State} {n p : String} :
    (apply_taxi_action s (.drop_off n p)).passengers
      = updAssoc s.passengers p (fun q => { q with is_arrived := true }) := rfl

theorem WF_apply_refuel {s : State} {n : String} (hwf : WF s) :
    WF (apply_taxi_action s (.refuel n)) := by
  refine ⟨?_, ?_, ?_, ?_, ?_, ?_, ?_, ?_, ?_⟩
  · rw [taxis_map_fst_apply]; exact hwf.keys_taxis
  · exact hwf.keys_passengers
  · exact hwf.counters
  · exact hwf.arrived_picked
  · exact hwf.unpicked_loc
  · intro nt hnt p hp
    rw [taxis_apply_refuel] at hnt
    obtain ⟨y, hy, -, h2⟩ := entry_updAssoc hnt
    have hlist : nt.2.passengers_on_taxi = y.2.passengers_on_taxi := by
      rcases h2 with ⟨-, h2⟩ | ⟨-, h2⟩ <;> rw [h2]
    rw [hlist] at hp
    exact hwf.aboard_flags y hy p hp
  · intro nt hnt
    rw [taxis_apply_refuel] at hnt
    obtain ⟨y, hy, -, h2⟩ := entry_updAssoc hnt
    have hlist : nt.2.passengers_on_taxi = y.2.passengers_on_taxi := by
      rcases h2 with ⟨-, h2⟩ | ⟨-, h2⟩ <;> rw [h2]
    rw [hlist]; exact hwf.aboard_nodup y hy
  · intro a ha b hb p hpa hpb
    rw [taxis_apply_refuel] at ha hb
    obtain ⟨ya, hya, ha1, ha2⟩ := entry_updAssoc ha
    obtain ⟨yb, hyb, hb1, hb2⟩ := entry_updAssoc hb
    have hla : a.2.passengers_on_taxi = ya.2.passengers_on_taxi := by
      rcases ha2 with ⟨-, h2⟩ | ⟨-, h2⟩ <;> rw [h2]
    have hlb : b.2.passengers_on_taxi = yb.2.passengers_on_taxi := by
      rcases hb2 with ⟨-, h2⟩ | ⟨-, h2⟩ <;> rw [h2]
    rw [hla] at hpa; rw [hlb] at hpb
    rw [ha1, hb1]
    exact hwf.carrier_unique ya hya yb hyb p hpa hpb
  · intro nt hnt
    rw [taxis_apply_refuel] at hnt
    obtain ⟨y, hy, -, h2⟩ := entry_updAssoc hnt
    rcases h2 with ⟨-, h2⟩ | ⟨-, h2⟩
    · rw [h2]; exact hwf.fuel_bounds y hy
    · have hold := hwf.fuel_bounds y hy
      rw [h2]
      exact ⟨le_trans hold.1 hold.2, le_refl _⟩

theorem WF_apply_move {s : State} {n : String} {tgt : Pos} (hwf : WF s)
    (hok : ok_at s (.move n tgt)) :
    WF (apply_taxi_action s (.move n tgt)) := by
  obtain ⟨t₀, hlt₀, hfuel⟩ := hok
  have hframe : ∀ p',
      ((apply_taxi_action s (.move n tgt)).passengers.lookup p').map pstat
        = (s.passengers.lookup p').map pstat := fun p' =>
    lookup_passengers_apply_pstat (by simp [TaxiAction.target_of])
  have hcnt : ∀ pred : Passenger → Bool, (∀ q : Passenger,
        pred { q with current_location := tgt } = pred q) →
      ((apply_taxi_action s (.move n tgt)).passengers.countP fun np => pred np.2)
        = s.passengers.countP fun np => pred np.2 := by
    intro pred hpred
    rw [passengers_apply_move]
    exact countP_foldl_updAssoc_invariant _ _ _ (fun _ a => hpred a)
  refine ⟨?_, ?_, ?_, ?_, ?_, ?_, ?_, ?_, ?_⟩
  · rw [taxis_map_fst_apply]; exact hwf.keys_taxis
  · rw [passengers_map_fst_apply]; exact hwf.keys_passengers
  · obtain ⟨c1, c2, c3⟩ := hwf.counters
    refine ⟨?_, ?_, ?_⟩
    · rw [hcnt (fun q => !q.is_picked) (fun q => rfl)]; exact c1
    · rw [hcnt (fun q => !q.is_arrived) (fun q => rfl)]; exact c2
    · rw [hcnt (fun q => q.is_picked && !q.is_arrived) (fun q => rfl)]; exact c3
  · intro np hnp harr
    rw [passengers_apply_move] at hnp
    obtain ⟨y, hy, -, h2⟩ := entry_foldl_setCur hnp
    rcases h2 with h2 | ⟨-, h2⟩ <;> rw [h2] at harr ⊢ <;>
      exact hwf.arrived_picked y hy harr
  · intro np hnp hpk
    rw [passengers_apply_move] at hnp
    obtain ⟨y, hy, h1, h2⟩ := entry_foldl_setCur hnp
    rcases h2 with h2 | ⟨hmem, h2⟩
    · rw [h2] at hpk ⊢; exact hwf.unpicked_loc y hy hpk
    · exfalso
      rw [hlt₀] at hmem
      obtain ⟨q, hql, hqpk, -⟩ :=
        hwf.aboard_flags (n, t₀) (mem_of_lookup_eq_some hlt₀) np.1 hmem
      rw [h1] at hql
      rw [lookup_eq_some_of_mem hwf.keys_passengers
        (show (y.1, y.2) ∈ s.passengers from hy)] at hql
      cases hql
      rw [h2] at hpk
      simp only at hpk
      rw [hqpk] at hpk
      cases hpk
  · intro nt hnt p hp
    rw [taxis_apply_move] at hnt
    obtain ⟨y, hy, -, h2⟩ := entry_updAssoc hnt
    have hlist : nt.2.passengers_on_taxi = y.2.passengers_on_taxi := by
      rcases h2 with ⟨-, h2⟩ | ⟨-, h2⟩ <;> rw [h2]
    rw [hlist] at hp
    exact aboard_flags_transfer hwf hframe hy hp
  · intro nt hnt
    rw [taxis_apply_move] at hnt
    obtain ⟨y, hy, -, h2⟩ := entry_updAssoc hnt
    have hlist : nt.2.passengers_on_taxi = y.2.passengers_on_taxi := by
      rcases h2 with ⟨-, h2⟩ | ⟨-, h2⟩ <;> rw [h2]
    rw [hlist]; exact hwf.aboard_nodup y hy
  · intro a ha b hb p hpa hpb
    rw [taxis_apply_move] at ha hb
    obtain ⟨ya, hya, ha1, ha2⟩ := entry_updAssoc ha
    obtain ⟨yb, hyb, hb1, hb2⟩ := entry_updAssoc hb
    have hla : a.2.passengers_on_taxi = ya.2.passengers_on_taxi := by
      rcases ha2 with ⟨-, h2⟩ | ⟨-, h2⟩ <;> rw [h2]
    have hlb : b.2.passengers_on_taxi = yb.2.passengers_on_taxi := by
      rcases hb2 with ⟨-, h2⟩ | ⟨-, h2⟩ <;> rw [h2]
    rw [hla] at hpa; rw [hlb] at hpb
    rw [ha1, hb1]
    exact hwf.carrier_unique ya hya yb hyb p hpa hpb
  · intro nt hnt
    rw [taxis_apply_move] at hnt
    obtain ⟨y, hy, -, h2⟩ := entry_updAssoc hnt
    rcases h2 with ⟨-, h2⟩ | ⟨hyn, h2⟩
    · rw [h2]; exact hwf.fuel_bounds y hy
    · have hold := hwf.fuel_bounds y hy
      have hyt : y.2 = t₀ := by
        have hmem' : (n, y.2) ∈ s.taxis := by
          rw [← hyn]; exact hy
        have := lookup_eq_some_of_mem hwf.keys_taxis hmem'
        rw [hlt₀] at this
        exact (Option.some.inj this).symm
      rw [h2]
      simp only
      constructor
      · rw [hyt]; omega
      · have := hold.2; omega

theorem WF_apply_pick {s : State} {n p : String} (hwf : WF s)
    (hok : ok_at s (.pick_up n p)) :
    WF (apply_taxi_action s (.pick_up n p)) := by
  obtain ⟨q₀, hq₀, hq₀pk⟩ := hok
  have hq₀mem : (p, q₀) ∈ s.passengers := mem_of_lookup_eq_some hq₀
  have hq₀arr : q₀.is_arrived = false := by
    cases harr : q₀.is_arrived
    · rfl
    · have := hwf.arrived_picked (p, q₀) hq₀mem harr
      rw [this] at hq₀pk; cases hq₀pk
  have hp_not_aboard : ∀ nt ∈ s.taxis, p ∉ nt.2.passengers_on_taxi := by
    intro nt hnt hmem
    obtain ⟨q, hql, hqpk, -⟩ := hwf.aboard_flags nt hnt p hmem
    rw [hq₀] at hql
    cases hql
    rw [hqpk] at hq₀pk; cases hq₀pk
  refine ⟨?_, ?_, ?_, ?_, ?_, ?_, ?_, ?_, ?_⟩
  · rw [taxis_map_fst_apply]; exact hwf.keys_taxis
  · rw [passengers_map_fst_apply]; exact hwf.keys_passengers
  · obtain ⟨c1, c2, c3⟩ := hwf.counters
    refine ⟨?_, ?_, ?_⟩
    · show s.num_of_unpicked - 1 = _
      rw [passengers_apply_pick]
      have hc := countP_updAssoc_of_lookup hwf.keys_passengers hq₀
        (fun q => { q with is_picked := true }) (fun q => !q.is_picked)
      simp only [hq₀pk] at hc
      norm_num at hc
      omega
    · show s.num_of_undelivered = _
      rw [passengers_apply_pick]
      have hc := @countP_updAssoc_invariant _ s.passengers p
        (fun q => { q with is_picked := true })
        (fun q => !q.is_arrived) (fun q => rfl)
      rw [hc]; exact c2
    · show s.num_of_picked_undelivered + 1 = _
      rw [passengers_apply_pick]
      have hc := countP_updAssoc_of_lookup hwf.keys_passengers hq₀
        (fun q => { q with is_picked := true })
        (fun q => q.is_picked && !q.is_arrived)
      simp only [hq₀pk, hq₀arr] at hc
      norm_num at hc
      omega
  · intro np hnp harr
    rw [passengers_apply_pick] at hnp
    obtain ⟨y, hy, -, h2⟩ := entry_updAssoc hnp
    rcases h2 with ⟨-, h2⟩ | ⟨-, h2⟩
    · rw [h2] at harr ⊢; exact hwf.arrived_picked y hy harr
    · rw [h2]
  · intro np hnp hpk
    rw [passengers_apply_pick] at hnp
    obtain ⟨y, hy, -, h2⟩ := entry_updAssoc hnp
    rcases h2 with ⟨-, h2⟩ | ⟨-, h2⟩
    · rw [h2] at hpk ⊢; exact hwf.unpicked_loc y hy hpk
    · rw [h2] at hpk; cases hpk
  · intro nt hnt p' hp'
    rw [taxis_apply_pick] at hnt
    rw [passengers_apply_pick]
    obtain ⟨y, hy, -, h2⟩ := entry_updAssoc hnt
    rcases h2 with ⟨-, h2⟩ | ⟨hyn, h2⟩
    · rw [h2] at hp'
      have hne : p' ≠ p := by
        rintro rfl; exact hp_not_aboard y hy hp'
      obtain ⟨q, hql, hflags⟩ := hwf.aboard_flags y hy p' hp'
      rw [lookup_updAssoc, if_neg hne]
      exact ⟨q, hql, hflags⟩
    · rw [h2] at hp'
      simp only [List.mem_append, List.mem_singleton] at hp'
      rcases hp' with hp' | rfl
      · have hne : p' ≠ p := by
          rintro rfl; exact hp_not_aboard y hy hp'
        obtain ⟨q, hql, hflags⟩ := hwf.aboard_flags y hy p' hp'
        rw [lookup_updAssoc, if_neg hne]
        exact ⟨q, hql, hflags⟩
      · rw [mem_updAssoc_self hq₀]
        exact ⟨_, rfl, rfl, hq₀arr⟩
  · intro nt hnt
    rw [taxis_apply_pick] at hnt
    obtain ⟨y, hy, -, h2⟩ := entry_updAssoc hnt
    rcases h2 with ⟨-, h2⟩ | ⟨-, h2⟩
    · rw [h2]; exact hwf.aboard_nodup y hy
    · rw [h2]
      simp only [List.nodup_append, List.nodup_singleton, true_and]
      refine ⟨hwf.aboard_nodup y hy, ?_⟩
      intro p' hp' hp''
      simp only [List.mem_singleton] at hp''
      subst hp''
      exact hp_not_aboard y hy hp'
  · intro a ha b hb p' hpa hpb
    rw [taxis_apply_pick] at ha hb
    obtain ⟨ya, hya, ha1, ha2⟩ := entry_updAssoc ha
    obtain ⟨yb, hyb, hb1, hb2⟩ := entry_updAssoc hb
    rw [ha1, hb1]
    rcases ha2 with ⟨-, ha2⟩ | ⟨hyan, ha2⟩ <;>
      rcases hb2 with ⟨-, hb2⟩ | ⟨hybn, hb2⟩
    · rw [ha2] at hpa; rw [hb2] at hpb
      exact hwf.carrier_unique ya hya yb hyb p' hpa hpb
    · rw [ha2] at hpa
      rw [hb2] at hpb
      simp only [List.mem_append, List.mem_singleton] at hpb
      rcases hpb with hpb | rfl
      · exact hwf.carrier_unique ya hya yb hyb p' hpa hpb
      · exact absurd hpa (hp_not_aboard ya hya)
    · rw [hb2] at hpb
      rw [ha2] at hpa
      simp only [List.mem_append, List.mem_singleton] at hpa
      rcases hpa with hpa | rfl
      · exact hwf.carrier_unique ya hya yb hyb p' hpa hpb
      · exact absurd hpb (hp_not_aboard yb hyb)
    · rw [hyan, hybn]
  · intro nt hnt
    rw [taxis_apply_pick] at hnt
    obtain ⟨y, hy, -, h2⟩ := entry_updAssoc hnt
    rcases h2 with ⟨-, h2⟩ | ⟨-, h2⟩ <;> rw [h2] <;> exact hwf.fuel_bounds y hy

theorem WF_apply_drop {s : State} {n p : String} (hwf : WF s)
    (hok : ok_at s (.drop_off n p)) :
    WF (apply_taxi_action s (.drop_off n p)) := by
  obtain ⟨⟨t₀, hlt₀, hpt₀⟩, q₀, hq₀, hq₀pk, hq₀arr⟩ := hok
  have ht₀mem : (n, t₀) ∈ s.taxis := mem_of_lookup_eq_some hlt₀
  have hq₀mem : (p, q₀) ∈ s.passengers := mem_of_lookup_eq_some hq₀
  have honly : ∀ y ∈ s.taxis, p ∈ y.2.passengers_on_taxi → y.1 = n := by
    intro y hy hp'
    exact hwf.carrier_unique y hy (n, t₀) ht₀mem p hp' hpt₀
  refine ⟨?_, ?_, ?_, ?_, ?_, ?_, ?_, ?_, ?_⟩
  · rw [taxis_map_fst_apply]; exact hwf.keys_taxis
  · rw [passengers_map_fst_apply]; exact hwf.keys_passengers
  · obtain ⟨c1, c2, c3⟩ := hwf.counters
    refine ⟨?_, ?_, ?_⟩
    · show s.num_of_unpicked = _
      rw [passengers_apply_drop]
      have hc := countP_updAssoc_of_lookup hwf.keys_passengers hq₀
        (fun q => { q with is_arrived := true }) (fun q => !q.is_picked)
      simp only [hq₀pk] at hc
      norm_num at hc
      omega
    · show s.num_of_undelivered - 1 = _
      rw [passengers_apply_drop]
      have hc := countP_updAssoc_of_lookup hwf.keys_passengers hq₀
        (fun q => { q with is_arrived := true }) (fun q => !q.is_arrived)
      simp only [hq₀arr] at hc
      norm_num at hc
      omega
    · show s.num_of_picked_undelivered - 1 = _
      rw [passengers_apply_drop]
      have hc := countP_updAssoc_of_lookup hwf.keys_passengers hq₀
        (fun q => { q with is_arrived := true })
        (fun q => q.is_picked && !q.is_arrived)
      simp only [hq₀pk, hq₀arr] at hc
      norm_num at hc
      omega
  · intro np hnp harr
    rw [passengers_apply_drop] at hnp
    obtain ⟨y, hy, -, h2⟩ := entry_updAssoc hnp
    rcases h2 with ⟨-, h2⟩ | ⟨hyp', h2⟩
    · rw [h2] at harr ⊢; exact hwf.arrived_picked y hy harr
    · have hyq : y.2 = q₀ := by
        have hmem' : (p, y.2) ∈ s.passengers := by rw [← hyp']; exact hy
        have := lookup_eq_some_of_mem hwf.keys_passengers hmem'
        rw [hq₀] at this
        exact (Option.some.inj this).symm
      rw [h2, hyq]
      show q₀.is_picked = true
      exact hq₀pk
  · intro np hnp hpk
    rw [passengers_apply_drop] at hnp
    obtain ⟨y, hy, -, h2⟩ := entry_updAssoc hnp
    rcases h2 with ⟨-, h2⟩ | ⟨hyp', h2⟩
    · rw [h2] at hpk ⊢; exact hwf.unpicked_loc y hy hpk
    · have hyq : y.2 = q₀ := by
        have hmem' : (p, y.2) ∈ s.passengers := by rw [← hyp']; exact hy
        have := lookup_eq_some_of_mem hwf.keys_passengers hmem'
        rw [hq₀] at this
        exact (Option.some.inj this).symm
      rw [h2, hyq] at hpk
      change q₀.is_picked = false at hpk
      rw [hq₀pk] at hpk; cases hpk
  · intro nt hnt p' hp'
    rw [taxis_apply_drop] at hnt
    rw [passengers_apply_drop]
    obtain ⟨y, hy, -, h2⟩ := entry_updAssoc hnt
    rcases h2 with ⟨hyn, h2⟩ | ⟨hyn, h2⟩
    · rw [h2] at hp'
      have hne : p' ≠ p := by
        rintro rfl
        exact hyn (honly y hy hp')
      obtain ⟨q, hql, hflags⟩ := hwf.aboard_flags y hy p' hp'
      rw [lookup_updAssoc, if_neg hne]
      exact ⟨q, hql, hflags⟩
    · rw [h2] at hp'
      have hnd := hwf.aboard_nodup y hy
      have := (hnd.mem_erase_iff).1 hp'
      obtain ⟨hne, hp''⟩ := this
      obtain ⟨q, hql, hflags⟩ := hwf.aboard_flags y hy p' hp''
      rw [lookup_updAssoc, if_neg hne]
      exact ⟨q, hql, hflags⟩
  · intro nt hnt
    rw [taxis_apply_drop] at hnt
    obtain ⟨y, hy, -, h2⟩ := entry_updAssoc hnt
    rcases h2 with ⟨-, h2⟩ | ⟨-, h2⟩
    · rw [h2]; exact hwf.aboard_nodup y hy
    · rw [h2]; exact (hwf.aboard_nodup y hy).erase p
  · intro a ha b hb p' hpa hpb
    rw [taxis_apply_drop] at ha hb
    obtain ⟨ya, hya, ha1, ha2⟩ := entry_updAssoc ha
    obtain ⟨yb, hyb, hb1, hb2⟩ := entry_updAssoc hb
    rw [ha1, hb1]
    have hpa' : p' ∈ ya.2.passengers_on_taxi := by
      rcases ha2 with ⟨-, h2⟩ | ⟨-, h2⟩
      · rw [h2] at hpa; exact hpa
      · rw [h2] at hpa; exact List.mem_of_mem_erase hpa
    have hpb' : p' ∈ yb.2.passengers_on_taxi := by
      rcases hb2 with ⟨-, h2⟩ | ⟨-, h2⟩
      · rw [h2] at hpb; exact hpb
      · rw [h2] at hpb; exact List.mem_of_mem_erase hpb
    exact hwf.carrier_unique ya hya yb hyb p' hpa' hpb'
  · intro nt hnt
    rw [taxis_apply_drop] at hnt
    obtain ⟨y, hy, -, h2⟩ := entry_updAssoc hnt
    rcases h2 with ⟨-, h2⟩ | ⟨-, h2⟩ <;> rw [h2] <;> exact hwf.fuel_bounds y hy

theorem WF_apply {s : State} {a : TaxiAction} (hwf : WF s) (hok : ok_at s a) :
    WF (apply_taxi_action s a) := by
  cases a with
  | wait n => exact WF_apply_wait hwf
  | move n tgt => exact WF_apply_move hwf hok
  | pick_up n p => exact WF_apply_pick hwf hok
  | drop_off n p => exact WF_apply_drop hwf hok
  | refuel n => exact WF_apply_refuel hwf

/-! ### Joint actions enumerated by `actions` -/

theorem actions_single {g : Grid} {s : State} {nt : String × Taxi}
    (hts : s.taxis = [nt]) :
    actions g s = Sum.inl (taxi_atomic_actions g s nt.1 nt.2) := by
  simp [actions, hts]

theorem actions_multi {g : Grid} {s : State} (hts : s.taxis.length ≠ 1) :
    actions g s = Sum.inr
      ((product (s.taxis.map fun nt => taxi_atomic_actions g s nt.1 nt.2)).filter
        fun ja => ja.length
          = ((ja.map fun a => post_location s a).dedup).length) := by
  have : (s.taxis.map fun nt => taxi_atomic_actions g s nt.1 nt.2).length ≠ 1 := by
    rw [List.length_map]; exact hts
  simp only [actions, if_neg this]

theorem joint_steps_single {g : Grid} {s : State} {nt : String × Taxi}
    (hts : s.taxis = [nt]) :
    joint_steps g s
      = (taxi_atomic_actions g s nt.1 nt.2).map fun a => [a] := by
  rw [joint_steps, actions_single hts]

theorem joint_steps_multi {g : Grid} {s : State} (hts : s.taxis.length ≠ 1) :
    joint_steps g s
      = (product (s.taxis.map fun nt => taxi_atomic_actions g s nt.1 nt.2)).filter
          fun ja => ja.length
            = ((ja.map fun a => post_location s a).dedup).length := by
  rw [joint_steps, actions_multi hts]

theorem joint_steps_spec {g : Grid} {s : State} {ja : List TaxiAction}
    (hja : ja ∈ joint_steps g s) :
    List.Forall₂ (fun a nt => a ∈ taxi_atomic_actions g s nt.1 nt.2) ja s.taxis
    ∧ (ja.map (post_location s)).Nodup := by
  by_cases hts : s.taxis.length = 1
  · obtain ⟨nt, hnt⟩ := List.length_eq_one.1 hts
    rw [joint_steps_single hnt, List.mem_map] at hja
    obtain ⟨a, ha, rfl⟩ := hja
    constructor
    · rw [hnt]; exact List.Forall₂.cons ha List.Forall₂.nil
    · simp
  · rw [joint_steps_multi hts, List.mem_filter] at hja
    obtain ⟨hprod, hcond⟩ := hja
    have hF := (List.forall₂_map_right_iff).1 (mem_product.1 hprod)
    refine ⟨hF, ?_⟩
    have hcond' : ja.length = ((ja.map fun a => post_location s a).dedup).length :=
      of_decide_eq_true hcond
    have hcond2 : ja.length = ((ja.map (post_location s)).dedup).length := hcond'
    have hlen2 : ((ja.map (post_location s)).dedup).length
        = (ja.map (post_location s)).length := by
      rw [List.length_map]; omega
    have hded : (ja.map (post_location s)).dedup = ja.map (post_location s) :=
      (List.dedup_sublist _).eq_of_length hlen2
    rw [← hded]
    exact List.nodup_dedup _

theorem forall₂_mem_left {α β : Type} {R : α → β → Prop} :
    ∀ {l : List α} {u : List β}, List.Forall₂ R l u →
      ∀ {a : α}, a ∈ l → ∃ b ∈ u, R a b := by
  intro l u hF
  induction hF with
  | nil => intro a ha; cases ha
  | cons hR hF ih =>
    intro a ha
    rcases List.mem_cons.1 ha with rfl | ha
    · exact ⟨_, List.mem_cons_self _ _, hR⟩
    · obtain ⟨b, hb, hRb⟩ := ih ha
      exact ⟨b, List.mem_cons_of_mem _ hb, hRb⟩

theorem ok_at_of_mem_atomic {g : Grid} {s : State} (hwf : WF s)
    {nt : String × Taxi} (hnt : nt ∈ s.taxis) {a : TaxiAction}
    (ha : a ∈ taxi_atomic_actions g s nt.1 nt.2) : ok_at s a := by
  have hlt : s.taxis.lookup nt.1 = some nt.2 :=
    lookup_eq_some_of_mem hwf.keys_taxis hnt
  cases a with
  | wait n => trivial
  | refuel n => trivial
  | move n tgt =>
    obtain ⟨rfl, hfuel⟩ := move_mem_atomic ha
    exact ⟨nt.2, hlt, hfuel⟩
  | pick_up n p =>
    obtain ⟨rfl, -, q, hq, hqpk, -, -⟩ := pick_mem_atomic_iff.1 ha
    exact ⟨q, lookup_eq_some_of_mem hwf.keys_passengers hq, hqpk⟩
  | drop_off n p =>
    obtain ⟨rfl, hab, q, hq, -, -⟩ := drop_mem_atomic_iff.1 ha
    obtain ⟨q', hql, hq'⟩ := hwf.aboard_flags nt hnt p hab
    exact ⟨⟨nt.2, hlt, hab⟩, q', hql, hq'⟩

theorem target_disjoint {g : Grid} {s : State} (hwf : WF s)
    {nt nt' : String × Taxi} (hnt : nt ∈ s.taxis) (hnt' : nt' ∈ s.taxis)
    (hname : nt.1 ≠ nt'.1) {a b : TaxiAction}
    (ha : a ∈ taxi_atomic_actions g s nt.1 nt.2)
    (hb : b ∈ taxi_atomic_actions g s nt'.1 nt'.2)
    (hpost : post_location s a ≠ post_location s b) :
    ∀ p, a.target_of = some p → b.target_of ≠ some p := by
  have hlt : s.taxis.lookup nt.1 = some nt.2 :=
    lookup_eq_some_of_mem hwf.keys_taxis hnt
  have hlt' : s.taxis.lookup nt'.1 = some nt'.2 :=
    lookup_eq_some_of_mem hwf.keys_taxis hnt'
  intro p hap hbp
  cases a with
  | wait n => cases hap
  | move n tgt => cases hap
  | refuel n => cases hap
  | pick_up n pa =>
    cases hap
    obtain ⟨rfl, -, q, hq, hqpk, hx, hy⟩ := pick_mem_atomic_iff.1 ha
    have hql : s.passengers.lookup p = some q :=
      lookup_eq_some_of_mem hwf.keys_passengers hq
    cases b with
    | wait n' => cases hbp
    | move n' tgt' => cases hbp
    | refuel n' => cases hbp
    | pick_up n' pb =>
      cases hbp
      obtain ⟨rfl, -, q', hq', -, hx', hy'⟩ := pick_mem_atomic_iff.1 hb
      have hql' : s.passengers.lookup p = some q' :=
        lookup_eq_some_of_mem hwf.keys_passengers hq'
      rw [hql] at hql'
      cases hql'
      apply hpost
      show ((s.taxis.lookup nt.1).getD dummyTaxi).location
        = ((s.taxis.lookup nt'.1).getD dummyTaxi).location
      rw [hlt, hlt']
      show nt.2.location = nt'.2.location
      have e1 : nt.2.location = q.location := Prod.ext hx hy
      have e2 : nt'.2.location = q.location := Prod.ext hx' hy'
      rw [e1, e2]
    | drop_off n' pb =>
      cases hbp
      obtain ⟨rfl, hab', -⟩ := drop_mem_atomic_iff.1 hb
      obtain ⟨q'', hql'', hq''pk, -⟩ := hwf.aboard_flags nt' hnt' p hab'
      rw [hql] at hql''
      cases hql''
      rw [hq''pk] at hqpk
      cases hqpk
  | drop_off n pa =>
    cases hap
    obtain ⟨rfl, hab, -⟩ := drop_mem_atomic_iff.1 ha
    cases b with
    | wait n' => cases hbp
    | move n' tgt' => cases hbp
    | refuel n' => cases hbp
    | pick_up n' pb =>
      cases hbp
      obtain ⟨rfl, -, q', hq', hq'pk, -, -⟩ := pick_mem_atomic_iff.1 hb
      have hql' : s.passengers.lookup p = some q' :=
        lookup_eq_some_of_mem hwf.keys_passengers hq'
      obtain ⟨q'', hql'', hq''pk, -⟩ := hwf.aboard_flags nt hnt p hab
      rw [hql'] at hql''
      cases hql''
      rw [hq''pk] at hq'pk
      cases hq'pk
    | drop_off n' pb =>
      cases hbp
      obtain ⟨rfl, hab', -⟩ := drop_mem_atomic_iff.1 hb
      exact hname (hwf.carrier_unique nt hnt nt' hnt' p hab hab')

theorem pairwise_taxi_of {g : Grid} {s : State} :
    ∀ {ja : List TaxiAction} {ts : List (String × Taxi)},
      List.Forall₂ (fun a nt => a ∈ taxi_atomic_actions g s nt.1 nt.2) ja ts →
      (ts.map Prod.fst).Nodup →
      ja.Pairwise (fun a b => a.taxi_of ≠ b.taxi_of) := by
  intro ja ts hF
  induction hF with
  | nil => intro _; exact List.Pairwise.nil
  | @cons a nt ja' ts' hR hF ih =>
    intro hnd
    simp only [List.map_cons, List.nodup_cons] at hnd
    refine List.Pairwise.cons ?_ (ih hnd.2)
    intro b hb
    obtain ⟨nt', hnt', hbR⟩ := forall₂_mem_left hF hb
    rw [taxi_of_mem_atomic hR, taxi_of_mem_atomic hbR]
    intro hc
    exact hnd.1 (by rw [hc]; exact List.mem_map.2 ⟨nt', hnt', rfl⟩)

theorem pairwise_target {g : Grid} {s : State} (hwf : WF s) :
    ∀ {ja : List TaxiAction} {ts : List (String × Taxi)},
      List.Forall₂ (fun a nt => a ∈ taxi_atomic_actions g s nt.1 nt.2) ja ts →
      (∀ nt ∈ ts, nt ∈ s.taxis) →
      (ts.map Prod.fst).Nodup →
      (ja.map (post_location s)).Nodup →
      ja.Pairwise (fun a b =>
        ∀ p, a.target_of = some p → b.target_of ≠ some p) := by
  intro ja ts hF
  induction hF with
  | nil => intro _ _ _; exact List.Pairwise.nil
  | @cons a nt ja' ts' hR hF ih =>
    intro hsub hnd hpost
    simp only [List.map_cons, List.nodup_cons] at hnd hpost
    refine List.Pairwise.cons ?_
      (ih (fun x hx => hsub x (List.mem_cons_of_mem _ hx)) hnd.2 hpost.2)
    intro b hb
    obtain ⟨nt', hnt', hbR⟩ := forall₂_mem_left hF hb
    refine target_disjoint hwf (hsub nt (List.mem_cons_self _ _))
      (hsub nt' (List.mem_cons_of_mem _ hnt')) ?_ hR hbR ?_
    · intro hc
      exact hnd.1 (by rw [hc]; exact List.mem_map.2 ⟨nt', hnt', rfl⟩)
    · intro hc
      exact hpost.1 (by rw [hc]; exact List.mem_map.2 ⟨b, hb, rfl⟩)

theorem WF_foldl :
    ∀ {ja : List TaxiAction} {s : State}, WF s →
      (∀ a ∈ ja, ok_at s a) →
      ja.Pairwise (fun a b => a.taxi_of ≠ b.taxi_of) →
      ja.Pairwise (fun a b => ∀ p, a.target_of = some p → b.target_of ≠ some p) →
      WF (ja.foldl apply_taxi_action s)
  | [], _, hwf, _, _, _ => hwf
  | a :: rest, s, hwf, hok, htx, htg => by
    rw [List.foldl_cons]
    have htx' := List.pairwise_cons.1 htx
    have htg' := List.pairwise_cons.1 htg
    refine WF_foldl (WF_apply hwf (hok a (List.mem_cons_self _ _))) ?_ htx'.2 htg'.2
    intro b hb
    refine ok_at_frame (hok b (List.mem_cons_of_mem _ hb)) ?_ ?_
    · intro hc; exact htx'.1 b hb hc.symm
    · intro p hbp hap
      exact htg'.1 b hb p hap hbp

theorem WF_joint_step {g : Grid} {s : State} (hwf : WF s)
    {ja : List TaxiAction} (hja : ja ∈ joint_steps g s) :
    WF (ja.foldl apply_taxi_action s) := by
  obtain ⟨hF, hpost⟩ := joint_steps_spec hja
  refine WF_foldl hwf ?_ (pairwise_taxi_of hF hwf.keys_taxis)
    (pairwise_target hwf hF (fun _ hx => hx) hwf.keys_taxis hpost)
  intro a ha
  obtain ⟨nt, hnt, haR⟩ := forall₂_mem_left hF ha
  exact ok_at_of_mem_atomic hwf hnt haR

theorem WF_step {g : Grid} {s s' : State} (hwf : WF s) (hstep : Step g s s') :
    WF s' := by
  obtain ⟨ja, hja, rfl⟩ := hstep
  exact WF_joint_step hwf hja

theorem WF_reachable {g : Grid} {init s : State} (hwf : WF init)
    (hr : Reachable g init s) : WF s := by
  induction hr with
  | refl => exact hwf
  | tail hr hstep ih => exact WF_step ih hstep

/-! ### The initial state is well formed -/

/-- A well-formed problem input: unique taxi and passenger names (Python
dicts cannot hold duplicate keys) and non-negative initial fuel (the spec
rejects negative fuel at construction). -/
abbrev valid_input (taxis : List (String × TaxiInput))
    (passengers : List (String × PassengerInput)) : Prop :=
  (taxis.map Prod.fst).Nodup ∧ (passengers.map Prod.fst).Nodup
  ∧ ∀ nt ∈ taxis, 0 ≤ nt.2.fuel

theorem WF_initial {T : List (String × TaxiInput)}
    {P : List (String × PassengerInput)} (hv : valid_input T P) :
    WF (initial_state T P) := by
  obtain ⟨h1, h2, h3⟩ := hv
  have hkt : (initial_state T P).taxis.map Prod.fst = T.map Prod.fst := by
    simp [initial_state, List.map_map, Function.comp]
  have hkp : (initial_state T P).passengers.map Prod.fst = P.map Prod.fst := by
    simp [initial_state, List.map_map, Function.comp]
  refine ⟨?_, ?_, ?_, ?_, ?_, ?_, ?_, ?_, ?_⟩
  · rw [hkt]; exact h1
  · rw [hkp]; exact h2
  · refine ⟨?_, ?_, ?_⟩
    · show (P.length : Int) = _
      simp only [initial_state, List.countP_map]
      congr 1
      exact (List.countP_eq_length.2 (fun a _ => rfl)).symm
    · show (P.length : Int) = _
      simp only [initial_state, List.countP_map]
      congr 1
      exact (List.countP_eq_length.2 (fun a _ => rfl)).symm
    · show (0 : Int) = _
      simp only [initial_state, List.countP_map]
      rw [show (0 : Int) = ((0 : Nat) : Int) from rfl]
      congr 1
      exact (List.countP_eq_zero.2 (fun a _ => by simp)).symm
  · intro np hnp harr
    simp only [initial_state, List.mem_map] at hnp
    obtain ⟨y, -, rfl⟩ := hnp
    cases harr
  · intro np hnp hpk
    simp only [initial_state, List.mem_map] at hnp
    obtain ⟨y, -, rfl⟩ := hnp
    rfl
  · intro nt hnt p hp
    simp only [initial_state, List.mem_map] at hnt
    obtain ⟨y, -, rfl⟩ := hnt
    cases hp
  · intro nt hnt
    simp only [initial_state, List.mem_map] at hnt
    obtain ⟨y, -, rfl⟩ := hnt
    exact List.nodup_nil
  · intro a ha b hb p hpa hpb
    simp only [initial_state, List.mem_map] at ha
    obtain ⟨y, -, rfl⟩ := ha
    cases hpa
  · intro nt hnt
    simp only [initial_state, List.mem_map] at hnt
    obtain ⟨y, hy, rfl⟩ := hnt
    exact ⟨h3 y hy, le_refl _⟩

/-- Counting version of the counter identity: given `is_arrived → is_picked`,
the undelivered passengers split into the unpicked ones and the picked
undelivered ones. -/
theorem countP_not_arrived_split (ps : List (String × Passenger))
    (himp : ∀ np ∈ ps, np.2.is_arrived = true → np.2.is_picked = true) :
    (ps.countP fun np => !np.2.is_arrived)
      = (ps.countP fun np => !np.2.is_picked)
        + ps.countP fun np => np.2.is_picked && !np.2.is_arrived := by
  induction ps with
  | nil => rfl
  | cons x xs ih =>
    simp only [List.countP_cons]
    have hx := himp x (List.mem_cons_self _ _)
    have hxs := ih fun np hnp => himp np (List.mem_cons_of_mem _ hnp)
    cases hpk : x.2.is_picked <;> cases har : x.2.is_arrived <;>
      simp only [hpk, har] at hx ⊢ <;> simp_all <;> omega

/-! ### Concrete example problems used in witnesses and counterexamples -/

/-- A 1 × 2 all-free grid. -/
def exGrid : Grid := [['P', 'P']]

/-- Two taxis on adjacent cells. -/
def exTaxisTwo : List (String × TaxiInput) :=
  [("taxi 1", { location := (0, 0), fuel := 1, capacity := 1 }),
   ("taxi 2", { location := (0, 1), fuel := 1, capacity := 1 })]

/-- Two passengers, each already standing on its own destination, one under
each taxi. -/
def exPassTwo : List (String × PassengerInput) :=
  [("A", { location := (0, 0), destination := (0, 0) }),
   ("B", { location := (0, 1), destination := (0, 1) })]

/-- The two-step optimal plan for the two-taxi example: both taxis pick up,
then both drop off. -/
def exPlanTwo : List (List TaxiAction) :=
  [[TaxiAction.pick_up "taxi 1" "A", TaxiAction.pick_up "taxi 2" "B"],
   [TaxiAction.drop_off "taxi 1" "A", TaxiAction.drop_off "taxi 2" "B"]]

/-- A single taxi at the origin cell. -/
def exTaxiOne : List (String × TaxiInput) :=
  [("t1", { location := (0, 0), fuel := 1, capacity := 1 })]

/-- One passenger from `(0,0)` to `(0,1)`. -/
def exPassOne : List (String × PassengerInput) :=
  [("p1", { location := (0, 0), destination := (0, 1) })]

/-- Pick up, move right one cell, drop off. -/
def exPlanOne : List (List TaxiAction) :=
  [[TaxiAction.pick_up "t1" "p1"], [TaxiAction.move "t1" (0, 1)],
   [TaxiAction.drop_off "t1" "p1"]]

/-- The goal state the one-taxi example reaches after its three-step plan. -/
def exGoalOne : State :=
  (run_plan exGrid (initial_state exTaxiOne exPassOne) exPlanOne).getD
    (initial_state exTaxiOne exPassOne)

/-- The single taxi record as built at construction. -/
def exTaxiRec : Taxi :=
  { location := (0, 0), fuel := 1, capacity := 1, MAX_FUEL := 1,
    passengers_on_taxi := [] }

/-- An artificial passenger record whose `current_location` disagrees with
its origin although it is not picked (no reachable state contains it). -/
def exBadPassenger : Passenger :=
  { location := (0, 0), destination := (0, 1), is_picked := false,
    is_arrived := false, current_location := (0, 1) }

/-- An artificial (unreachable) state holding `exBadPassenger`. -/
def exBadState : State :=
  { taxis := [("t1", exTaxiRec)], passengers := [("p1", exBadPassenger)],
    num_of_undelivered := 1, num_of_unpicked := 1,
    num_of_picked_undelivered := 0 }

/-! ### The claims -/

/-- C3: for every state with at least two taxis, every joint action returned
by the enumerator assigns pairwise distinct post-step positions (the move
target for a `move`, the current taxi location otherwise). -/
theorem C3_no_collision {g : Grid} {s : State} {ja : List TaxiAction}
    (htwo : 2 ≤ s.taxis.length) (hja : ja ∈ joint_steps g s) :
    (ja.map (post_location s)).Nodup :=
  (joint_steps_spec hja).2

theorem C3_witness :
    2 ≤ (initial_state exTaxisTwo exPassTwo).taxis.length
    ∧ [TaxiAction.pick_up "taxi 1" "A", TaxiAction.pick_up "taxi 2" "B"]
        ∈ joint_steps exGrid (initial_state exTaxisTwo exPassTwo)
    ∧ ([TaxiAction.pick_up "taxi 1" "A", TaxiAction.pick_up "taxi 2" "B"].map
        (post_location (initial_state exTaxisTwo exPassTwo))).Nodup :=
  ⟨by decide, by decide,
    @C3_no_collision exGrid (initial_state exTaxisTwo exPassTwo)
      [TaxiAction.pick_up "taxi 1" "A", TaxiAction.pick_up "taxi 2" "B"]
      (by decide) (by decide)⟩

/-- C4: in every reachable state the counter `num_of_undelivered` equals
`num_of_unpicked + num_of_picked_undelivered`, `num_of_unpicked` counts the
passengers with `is_picked` false, and `num_of_undelivered` counts the
passengers with `is_arrived` false. -/
theorem C4_counter_invariant {g : Grid} {T : List (String × TaxiInput)}
    {P : List (String × PassengerInput)} {s : State}
    (hv : valid_input T P) (hr : Reachable g (initial_state T P) s) :
    s.num_of_undelivered = s.num_of_unpicked + s.num_of_picked_undelivered
    ∧ s.num_of_unpicked
        = (s.passengers.countP fun np => !np.2.is_picked : Nat)
    ∧ s.num_of_undelivered
        = (s.passengers.countP fun np => !np.2.is_arrived : Nat) := by
  have hwf := WF_reachable (WF_initial hv) hr
  obtain ⟨c1, c2, c3⟩ := hwf.counters
  refine ⟨?_, c1, c2⟩
  rw [c1, c2, c3]
  have hsplit := countP_not_arrived_split s.passengers hwf.arrived_picked
  exact_mod_cast congrArg (fun n : Nat => (n : Int)) hsplit

theorem C4_witness :
    valid_input exTaxisTwo exPassTwo
    ∧ ((initial_state exTaxisTwo exPassTwo).num_of_undelivered
        = (initial_state exTaxisTwo exPassTwo).num_of_unpicked
          + (initial_state exTaxisTwo exPassTwo).num_of_picked_undelivered
      ∧ (initial_state exTaxisTwo exPassTwo).num_of_unpicked
          = ((initial_state exTaxisTwo exPassTwo).passengers.countP
              fun np => !np.2.is_picked : Nat)
      ∧ (initial_state exTaxisTwo exPassTwo).num_of_undelivered
          = ((initial_state exTaxisTwo exPassTwo).passengers.countP
              fun np => !np.2.is_arrived : Nat)) :=
  ⟨by decide, C4_counter_invariant (g := exGrid) (by decide) Reachable.refl⟩

/-- C7: with exactly one taxi, `actions` returns that taxi's atomic actions
directly (`Sum.inl`), not singleton joint actions. -/
theorem C7_single_taxi_atomic {g : Grid} {s : State} {nt : String × Taxi}
    (hts : s.taxis = [nt]) :
    actions g s = Sum.inl (taxi_atomic_actions g s nt.1 nt.2) :=
  actions_single hts

theorem C7_witness :
    (initial_state exTaxiOne exPassOne).taxis = [("t1", exTaxiRec)]
    ∧ actions exGrid (initial_state exTaxiOne exPassOne)
        = Sum.inl (taxi_atomic_actions exGrid
            (initial_state exTaxiOne exPassOne) "t1" exTaxiRec) :=
  ⟨by decide,
    @C7_single_taxi_atomic exGrid (initial_state exTaxiOne exPassOne)
      ("t1", exTaxiRec) (by decide)⟩

/-- C5 counterexample: the enumerator checks the passenger's immutable
`location` (origin) field, not `current_location`: on a state whose only
passenger record has `current_location ≠` the taxi's location (while the
origin matches), the pick up is enumerated although the claim's
current-location condition fails. -/
theorem C5_counterexample :
    TaxiAction.pick_up "t1" "p1"
        ∈ taxi_atomic_actions exGrid exBadState "t1" exTaxiRec
    ∧ exBadState.passengers = [("p1", exBadPassenger)]
    ∧ 0 < exTaxiRec.capacity
    ∧ exBadPassenger.is_picked = false
    ∧ exBadPassenger.current_location ≠ exTaxiRec.location := by
  refine ⟨by decide, rfl, by decide, rfl, by decide⟩

/-- C5 amended: on every reachable state the enumerated pick ups are exactly
those with positive capacity, an unpicked passenger, and the passenger's
current location equal to the taxi's location (on reachable states the origin
field the code checks coincides with `current_location`). -/
theorem C5_amended_pickup_iff {g : Grid} {T : List (String × TaxiInput)}
    {P : List (String × PassengerInput)} {s : State}
    (hv : valid_input T P) (hr : Reachable g (initial_state T P) s)
    {n p : String} {t : Taxi} (hnt : (n, t) ∈ s.taxis) :
    TaxiAction.pick_up n p ∈ taxi_atomic_actions g s n t
      ↔ 0 < t.capacity
        ∧ ∃ q, (p, q) ∈ s.passengers ∧ q.is_picked = false
            ∧ q.current_location = t.location := by
  have hwf := WF_reachable (WF_initial hv) hr
  rw [pick_mem_atomic_iff]
  constructor
  · rintro ⟨-, hcap, q, hq, hqpk, hx, hy⟩
    refine ⟨hcap, q, hq, hqpk, ?_⟩
    rw [hwf.unpicked_loc (p, q) hq hqpk]
    exact (Prod.ext hx hy).symm
  · rintro ⟨hcap, q, hq, hqpk, hcur⟩
    have hloc : q.location = t.location := by
      rw [← hwf.unpicked_loc (p, q) hq hqpk]
      exact hcur
    exact ⟨rfl, hcap, q, hq, hqpk,
      congrArg Prod.fst hloc.symm, congrArg Prod.snd hloc.symm⟩

theorem C5_witness :
    valid_input exTaxiOne exPassOne
    ∧ ("t1", exTaxiRec) ∈ (initial_state exTaxiOne exPassOne).taxis
    ∧ (TaxiAction.pick_up "t1" "p1"
        ∈ taxi_atomic_actions exGrid (initial_state exTaxiOne exPassOne)
            "t1" exTaxiRec
      ↔ 0 < exTaxiRec.capacity
        ∧ ∃ q, ("p1", q) ∈ (initial_state exTaxiOne exPassOne).passengers
            ∧ q.is_picked = false ∧ q.current_location = exTaxiRec.location) :=
  ⟨by decide, by decide,
    C5_amended_pickup_iff (g := exGrid) (by decide) Reachable.refl (by decide)⟩

/-- C6: on every reachable state, `move` is enumerated only with positive
fuel, `refuel` only on a gas-station cell, applying `refuel` sets the fuel to
exactly `MAX_FUEL`, and all fuel values stay within `[0, MAX_FUEL]`. -/
theorem C6_fuel_invariants {g : Grid} {T : List (String × TaxiInput)}
    {P : List (String × PassengerInput)} {s : State}
    (hv : valid_input T P) (hr : Reachable g (initial_state T P) s) :
    (∀ ja ∈ joint_steps g s, ∀ a ∈ ja,
      (∀ n tgt, a = TaxiAction.move n tgt →
        ∃ t, s.taxis.lookup n = some t ∧ 0 < t.fuel)
      ∧ (∀ n, a = TaxiAction.refuel n →
        ∃ t, s.taxis.lookup n = some t
          ∧ cell g t.location.1 t.location.2 = 'G'))
    ∧ (∀ n t, s.taxis.lookup n = some t →
        (apply_taxi_action s (TaxiAction.refuel n)).taxis.lookup n
          = some { t with fuel := t.MAX_FUEL })
    ∧ ∀ nt ∈ s.taxis, 0 ≤ nt.2.fuel ∧ nt.2.fuel ≤ nt.2.MAX_FUEL := by
  have hwf := WF_reachable (WF_initial hv) hr
  refine ⟨?_, ?_, hwf.fuel_bounds⟩
  · intro ja hja a ha
    obtain ⟨hF, -⟩ := joint_steps_spec hja
    obtain ⟨nt, hnt, haR⟩ := forall₂_mem_left hF ha
    constructor
    · rintro n tgt rfl
      obtain ⟨rfl, hfuel⟩ := move_mem_atomic haR
      exact ⟨nt.2, lookup_eq_some_of_mem hwf.keys_taxis hnt, hfuel⟩
    · rintro n rfl
      obtain ⟨rfl, hg⟩ := refuel_mem_atomic haR
      exact ⟨nt.2, lookup_eq_some_of_mem hwf.keys_taxis hnt, hg⟩
  · intro n t hlt
    rw [taxis_apply_refuel]
    exact mem_updAssoc_self hlt _

theorem C6_witness :
    valid_input exTaxiOne exPassOne
    ∧ ∀ nt ∈ (initial_state exTaxiOne exPassOne).taxis,
        0 ≤ nt.2.fuel ∧ nt.2.fuel ≤ nt.2.MAX_FUEL :=
  ⟨by decide,
    (C6_fuel_invariants (g := exGrid) (by decide) Reachable.refl).2.2⟩

/-- C9: on every reachable state every unpicked passenger's
`current_location` equals its origin `location` field, so the enumerator's
origin-based pick up check decides the same condition a current-location
check would. -/
theorem C9_unpicked_at_origin {g : Grid} {T : List (String × TaxiInput)}
    {P : List (String × PassengerInput)} {s : State}
    (hv : valid_input T P) (hr : Reachable g (initial_state T P) s) :
    (∀ np ∈ s.passengers, np.2.is_picked = false →
      np.2.current_location = np.2.location)
    ∧ ∀ (t : Taxi) (p : String) (q : Passenger), (p, q) ∈ s.passengers →
        ((q.is_picked = false ∧ q.location = t.location)
          ↔ (q.is_picked = false ∧ q.current_location = t.location)) := by
  have hwf := WF_reachable (WF_initial hv) hr
  refine ⟨hwf.unpicked_loc, ?_⟩
  intro t p q hq
  constructor
  · rintro ⟨hpk, hloc⟩
    exact ⟨hpk, by rw [hwf.unpicked_loc (p, q) hq hpk, hloc]⟩
  · rintro ⟨hpk, hloc⟩
    exact ⟨hpk, by rw [← hwf.unpicked_loc (p, q) hq hpk, hloc]⟩

theorem C9_witness :
    valid_input exTaxiOne exPassOne
    ∧ ∀ np ∈ (initial_state exTaxiOne exPassOne).passengers,
        np.2.is_picked = false → np.2.current_location = np.2.location :=
  ⟨by decide,
    (C9_unpicked_at_origin (g := exGrid) (by decide) Reachable.refl).1⟩

/-! ### Taxi locations after a joint step are the filtered post positions -/

theorem post_frame {s : State} {a b : TaxiAction}
    (hne : b.taxi_of ≠ a.taxi_of) :
    post_location (apply_taxi_action s a) b = post_location s b := by
  cases b with
  | move n tgt => rfl
  | wait n =>
    simp only [TaxiAction.taxi_of] at hne
    show (((apply_taxi_action s a).taxis.lookup n).getD dummyTaxi).location
      = ((s.taxis.lookup n).getD dummyTaxi).location
    rw [lookup_taxis_apply_ne hne]
  | pick_up n p =>
    simp only [TaxiAction.taxi_of] at hne
    show (((apply_taxi_action s a).taxis.lookup n).getD dummyTaxi).location
      = ((s.taxis.lookup n).getD dummyTaxi).location
    rw [lookup_taxis_apply_ne hne]
  | drop_off n p =>
    simp only [TaxiAction.taxi_of] at hne
    show (((apply_taxi_action s a).taxis.lookup n).getD dummyTaxi).location
      = ((s.taxis.lookup n).getD dummyTaxi).location
    rw [lookup_taxis_apply_ne hne]
  | refuel n =>
    simp only [TaxiAction.taxi_of] at hne
    show (((apply_taxi_action s a).taxis.lookup n).getD dummyTaxi).location
      = ((s.taxis.lookup n).getD dummyTaxi).location
    rw [lookup_taxis_apply_ne hne]

theorem fold_lookup_frame :
    ∀ {ja : List TaxiAction} {s : State} {n : String},
      (∀ b ∈ ja, n ≠ b.taxi_of) →
      (ja.foldl apply_taxi_action s).taxis.lookup n = s.taxis.lookup n
  | [], _, _, _ => rfl
  | b :: rest, s, n, hn => by
    rw [List.foldl_cons,
      fold_lookup_frame fun c hc => hn c (List.mem_cons_of_mem _ hc),
      lookup_taxis_apply_ne (hn b (List.mem_cons_self _ _))]

theorem lookup_loc_apply_self {s : State} {a : TaxiAction} {t : Taxi}
    (ht : s.taxis.lookup a.taxi_of = some t) :
    ((apply_taxi_action s a).taxis.lookup a.taxi_of).map (fun u => u.location)
      = some (post_location s a) := by
  cases a with
  | wait n =>
    simp only [TaxiAction.taxi_of] at ht
    show ((s.taxis.lookup n).map fun u => u.location)
      = some (((s.taxis.lookup n).getD dummyTaxi).location)
    rw [ht]
    rfl
  | move n tgt =>
    simp only [TaxiAction.taxi_of] at ht
    show (((apply_taxi_action s (TaxiAction.move n tgt)).taxis.lookup n).map
        fun u => u.location) = some tgt
    rw [taxis_apply_move, mem_updAssoc_self ht]
    rfl
  | pick_up n p =>
    simp only [TaxiAction.taxi_of] at ht
    show (((apply_taxi_action s (TaxiAction.pick_up n p)).taxis.lookup n).map
        fun u => u.location)
      = some (((s.taxis.lookup n).getD dummyTaxi).location)
    rw [taxis_apply_pick, mem_updAssoc_self ht, ht]
    rfl
  | drop_off n p =>
    simp only [TaxiAction.taxi_of] at ht
    show (((apply_taxi_action s (TaxiAction.drop_off n p)).taxis.lookup n).map
        fun u => u.location)
      = some (((s.taxis.lookup n).getD dummyTaxi).location)
    rw [taxis_apply_drop, mem_updAssoc_self ht, ht]
    rfl
  | refuel n =>
    simp only [TaxiAction.taxi_of] at ht
    show (((apply_taxi_action s (TaxiAction.refuel n)).taxis.lookup n).map
        fun u => u.location)
      = some (((s.taxis.lookup n).getD dummyTaxi).location)
    rw [taxis_apply_refuel, mem_updAssoc_self ht, ht]
    rfl

theorem fold_lookup_loc :
    ∀ {ja : List TaxiAction} {s : State},
      ja.Pairwise (fun x y => x.taxi_of ≠ y.taxi_of) →
      (∀ x ∈ ja, ∃ t, s.taxis.lookup x.taxi_of = some t) →
      ∀ a ∈ ja, ((ja.foldl apply_taxi_action s).taxis.lookup a.taxi_of).map
          (fun u => u.location) = some (post_location s a)
  | [], _, _, _, a, ha => absurd ha (List.not_mem_nil a)
  | x :: rest, s, hpw, hex, a, ha => by
    rw [List.foldl_cons]
    have hpw' := List.pairwise_cons.1 hpw
    rcases List.mem_cons.1 ha with rfl | ha'
    · obtain ⟨t, ht⟩ := hex a (List.mem_cons_self _ _)
      rw [fold_lookup_frame hpw'.1]
      exact lookup_loc_apply_self ht
    · have hx_ne : ∀ b ∈ rest, b.taxi_of ≠ x.taxi_of := by
        intro b hb hc
        exact hpw'.1 b hb hc.symm
      have hex' : ∀ b ∈ rest, ∃ t,
          (apply_taxi_action s x).taxis.lookup b.taxi_of = some t := by
        intro b hb
        obtain ⟨t, ht⟩ := hex b (List.mem_cons_of_mem _ hb)
        exact ⟨t, (lookup_taxis_apply_ne (hx_ne b hb)).trans ht⟩
      rw [fold_lookup_loc hpw'.2 hex' a ha', post_frame (hx_ne a ha')]

theorem fold_keys (ja : List TaxiAction) (s : State) :
    (ja.foldl apply_taxi_action s).taxis.map Prod.fst
      = s.taxis.map Prod.fst := by
  induction ja generalizing s with
  | nil => rfl
  | cons a rest ih =>
    rw [List.foldl_cons, ih, taxis_map_fst_apply]

theorem names_align {g : Grid} {s : State} {ja : List TaxiAction}
    {ts : List (String × Taxi)}
    (hF : List.Forall₂ (fun a nt => a ∈ taxi_atomic_actions g s nt.1 nt.2) ja ts) :
    ja.map TaxiAction.taxi_of = ts.map Prod.fst := by
  induction hF with
  | nil => rfl
  | cons hR hF ih =>
    simp only [List.map_cons, ih, taxi_of_mem_atomic hR]

theorem fold_locations {g : Grid} {s : State} (hwf : WF s)
    {ja : List TaxiAction} (hja : ja ∈ joint_steps g s) :
    ((ja.foldl apply_taxi_action s).taxis.map fun nt => nt.2.location)
      = ja.map (post_location s) := by
  obtain ⟨hF, -⟩ := joint_steps_spec hja
  have hlen : ja.length = s.taxis.length := hF.length_eq
  have hkeys := fold_keys ja s
  have hnames := names_align hF
  have hflen : (ja.foldl apply_taxi_action s).taxis.length = ja.length := by
    have h := congrArg List.length hkeys
    simp only [List.length_map] at h
    omega
  have hfkeys_nodup :
      ((ja.foldl apply_taxi_action s).taxis.map Prod.fst).Nodup := by
    rw [hkeys]; exact hwf.keys_taxis
  have hexists : ∀ x ∈ ja, ∃ t, s.taxis.lookup x.taxi_of = some t := by
    intro x hx
    obtain ⟨nt, hnt, hxR⟩ := forall₂_mem_left hF hx
    rw [taxi_of_mem_atomic hxR]
    exact ⟨nt.2, lookup_eq_some_of_mem hwf.keys_taxis hnt⟩
  have hloc := fold_lookup_loc (pairwise_taxi_of hF hwf.keys_taxis) hexists
  apply List.ext_getElem
  · simp only [List.length_map]; omega
  intro i h1 h2
  simp only [List.length_map] at h1 h2
  rw [List.getElem_map, List.getElem_map]
  have hmem : (ja.foldl apply_taxi_action s).taxis[i] ∈
      (ja.foldl apply_taxi_action s).taxis := List.getElem_mem _
  have hlook : (ja.foldl apply_taxi_action s).taxis.lookup
      ((ja.foldl apply_taxi_action s).taxis[i]).1
        = some ((ja.foldl apply_taxi_action s).taxis[i]).2 :=
    lookup_eq_some_of_mem hfkeys_nodup hmem
  have hname_i : ((ja.foldl apply_taxi_action s).taxis[i]).1
      = (ja[i]).taxi_of := by
    have heq : (ja.foldl apply_taxi_action s).taxis.map Prod.fst
        = ja.map TaxiAction.taxi_of := hkeys.trans hnames.symm
    have h3 : i < ((ja.foldl apply_taxi_action s).taxis.map Prod.fst).length := by
      simp only [List.length_map]; omega
    have := List.getElem_of_eq heq h3
    rw [List.getElem_map, List.getElem_map] at this
    exact this
  have := hloc (ja[i]) (List.getElem_mem _)
  rw [← hname_i, hlook] at this
  exact Option.some.inj this

theorem locations_nodup_reachable {g : Grid} {T : List (String × TaxiInput)}
    {P : List (String × PassengerInput)} {s : State}
    (hv : valid_input T P)
    (hd : (T.map fun nt => nt.2.location).Nodup)
    (hr : Reachable g (initial_state T P) s) :
    (s.taxis.map fun nt => nt.2.location).Nodup := by
  induction hr with
  | refl =>
    have : ((initial_state T P).taxis.map fun nt => nt.2.location)
        = T.map fun nt => nt.2.location := by
      simp [initial_state, List.map_map, Function.comp]
    rw [this]; exact hd
  | tail hr hstep ih =>
    rename_i s₁ s₂
    obtain ⟨ja, hja, rfl⟩ := hstep
    have hwf := WF_reachable (WF_initial hv) hr
    rw [fold_locations hwf hja]
    exact (joint_steps_spec hja).2

/-- C10: with pairwise distinct initial taxi locations, every reachable
state keeps the taxi locations pairwise distinct, and no enumerated joint
action ever contains two pick ups of the same passenger by two taxis. -/
theorem C10_distinct_locations {g : Grid} {T : List (String × TaxiInput)}
    {P : List (String × PassengerInput)} {s : State}
    (hv : valid_input T P)
    (hd : (T.map fun nt => nt.2.location).Nodup)
    (hr : Reachable g (initial_state T P) s) :
    (s.taxis.map fun nt => nt.2.location).Nodup
    ∧ ∀ ja ∈ joint_steps g s, ja.Pairwise fun a b =>
        ∀ n m p, a = TaxiAction.pick_up n p → b ≠ TaxiAction.pick_up m p := by
  have hwf := WF_reachable (WF_initial hv) hr
  refine ⟨locations_nodup_reachable hv hd hr, ?_⟩
  intro ja hja
  obtain ⟨hF, hpost⟩ := joint_steps_spec hja
  have := pairwise_target hwf hF (fun _ hx => hx) hwf.keys_taxis hpost
  refine this.imp ?_
  intro a b hP n m p ha hb
  exact hP p (by rw [ha]; rfl) (by rw [hb]; rfl)

theorem C10_witness :
    valid_input exTaxisTwo exPassTwo
    ∧ (exTaxisTwo.map fun nt => nt.2.location).Nodup
    ∧ ((initial_state exTaxisTwo exPassTwo).taxis.map
        fun nt => nt.2.location).Nodup :=
  ⟨by decide, by decide,
    (C10_distinct_locations (g := exGrid) (by decide) (by decide)
      Reachable.refl).1⟩

/-- C1 (code bug): the heuristic `h` is not admissible, contrary to its own
docstring.  At the initial state of the two-taxi example it returns 4, yet
the two-step joint plan (both taxis pick up, then both drop off) is legal and
reaches the goal, so the true optimal remaining step count is at most 2. -/
theorem C1_h_exceeds_optimal :
    h (initial_state exTaxisTwo exPassTwo) = 4
    ∧ (run_plan exGrid (initial_state exTaxisTwo exPassTwo) exPlanTwo).map
        goal_test = some true
    ∧ exPlanTwo.length = 2
    ∧ (2 : ℚ) < h (initial_state exTaxisTwo exPassTwo) := by
  have h4 : h (initial_state exTaxisTwo exPassTwo) = 4 := by
    with_unfolding_all rfl
  refine ⟨h4, by decide, rfl, ?_⟩
  rw [h4]
  norm_num

/-- C2 counterexample: `h_2` does not return 0 at every reachable goal
state: it keeps charging the origin-to-destination distance of passengers
already delivered.  After the one-taxi example delivers its passenger
(origin `(0,0)`, destination `(0,1)`), the goal state has `h_2 = 1 ≠ 0`. -/
theorem C2_counterexample_h2_nonzero_at_goal :
    ∃ sG, Reachable exGrid (initial_state exTaxiOne exPassOne) sG
      ∧ goal_test sG = true ∧ h_2 sG ≠ 0 := by
  refine ⟨exGoalOne, ?_, by decide, ?_⟩
  · have hrun : run_plan exGrid (initial_state exTaxiOne exPassOne) exPlanOne
        = some exGoalOne := by decide
    exact reachable_of_run_plan hrun Reachable.refl
  · rw [show h_2 exGoalOne = 1 from by with_unfolding_all rfl]
    norm_num

/-- C2 amended: at every reachable goal state `h` and `h_1` return 0 (`h_2`
need not, as the counterexample shows). -/
theorem C2_amended_h_h1_zero_at_goal {g : Grid}
    {T : List (String × TaxiInput)} {P : List (String × PassengerInput)}
    {s : State} (hv : valid_input T P)
    (hr : Reachable g (initial_state T P) s) (hg : goal_test s = true) :
    h s = 0 ∧ h_1 s = 0 := by
  have hwf := WF_reachable (WF_initial hv) hr
  have hundeliv : s.num_of_undelivered = 0 := of_decide_eq_true hg
  constructor
  · simp only [h, if_pos hundeliv]
  · obtain ⟨c1, c2, c3⟩ := hwf.counters
    rw [hundeliv] at c2
    have hall : ∀ np ∈ s.passengers, np.2.is_arrived = true := by
      have hz : (s.passengers.countP fun np => !np.2.is_arrived) = 0 := by
        exact_mod_cast c2.symm
      intro np hnp
      have := List.countP_eq_zero.1 hz np hnp
      simpa using this
    have hc1 : (s.passengers.countP fun np => !np.2.is_picked) = 0 :=
      List.countP_eq_zero.2 fun np hnp => by
        simp [hwf.arrived_picked np hnp (hall np hnp)]
    have hc3 : (s.passengers.countP
        fun np => np.2.is_picked && !np.2.is_arrived) = 0 :=
      List.countP_eq_zero.2 fun np hnp => by simp [hall np hnp]
    rw [hc1] at c1
    rw [hc3] at c3
    simp only [h_1, c1, c3]
    norm_num

theorem C2_witness :
    valid_input exTaxiOne ([] : List (String × PassengerInput))
    ∧ goal_test (initial_state exTaxiOne []) = true
    ∧ h (initial_state exTaxiOne []) = 0
    ∧ h_1 (initial_state exTaxiOne []) = 0 :=
  ⟨by decide, by decide,
    C2_amended_h_h1_zero_at_goal (g := exGrid) (T := exTaxiOne)
      (P := ([] : List (String × PassengerInput)))
      (by decide) Reachable.refl (by decide)⟩

/-! ### JSON serialization (claim C8)

The source keeps states as JSON strings: `__init__` produces
`json.dumps(state, indent=3)` while `result` produces `json.dumps(state)`
(compact).  The AST below covers exactly the values occurring in a state
dict, and the two printers reproduce Python's formatting: the compact one
uses the default separators `", "` and `": "`, the indented one puts each
item on its own line indented by three spaces per level, with empty
containers rendered inline. -/

inductive Json where
  | num (n : Int)
  | str (s : String)
  | bool (b : Bool)
  | arr (xs : List Json)
  | obj (fields : List (String × Json))

mutual

/-- `json.dumps(v)`: Python's compact serialization with the default
separators `", "` and `": "`. -/
def dumps : Json → String
  | .num n => toString n
  | .str s => "\"" ++ s ++ "\""
  | .bool b => if b then "true" else "false"
  | .arr xs => "[" ++ dumpsArr xs ++ "]"
  | .obj fs => "\x7b" ++ dumpsObj fs ++ "\x7d"

/-- Array items of the compact serialization. -/
def dumpsArr : List Json → String
  | [] => ""
  | [x] => dumps x
  | x :: xs => dumps x ++ ", " ++ dumpsArr xs

/-- Object fields of the compact serialization. -/
def dumpsObj : List (String × Json) → String
  | [] => ""
  | [(k, v)] => "\"" ++ k ++ "\": " ++ dumps v
  | (k, v) :: fs => "\"" ++ k ++ "\": " ++ dumps v ++ ", " ++ dumpsObj fs

end

/-- A newline followed by `3 * level` spaces, the line prefix
`json.dumps(..., indent=3)` puts before an element at the given depth. -/
def nlIndent (level : Nat) : String :=
  "\n" ++ String.mk (List.replicate (3 * level) ' ')

mutual

/-- `json.dumps(v, indent=3)`: every container item on its own line,
indented three spaces per nesting level; empty containers inline. -/
def dumpsInd : Nat → Json → String
  | _, .num n => toString n
  | _, .str s => "\"" ++ s ++ "\""
  | _, .bool b => if b then "true" else "false"
  | _, .arr [] => "[]"
  | lvl, .arr (x :: xs) =>
    "[" ++ nlIndent (lvl + 1) ++ dumpsIndArr (lvl + 1) (x :: xs)
      ++ nlIndent lvl ++ "]"
  | _, .obj [] => "\x7b\x7d"
  | lvl, .obj (f :: fs) =>
    "\x7b" ++ nlIndent (lvl + 1) ++ dumpsIndObj (lvl + 1) (f :: fs)
      ++ nlIndent lvl ++ "\x7d"

/-- Array items of the indented serialization. -/
def dumpsIndArr : Nat → List Json → String
  | _, [] => ""
  | lvl, [x] => dumpsInd lvl x
  | lvl, x :: xs => dumpsInd lvl x ++ "," ++ nlIndent lvl ++ dumpsIndArr lvl xs

/-- Object fields of the indented serialization. -/
def dumpsIndObj : Nat → List (String × Json) → String
  | _, [] => ""
  | lvl, [(k, v)] => "\"" ++ k ++ "\": " ++ dumpsInd lvl v
  | lvl, (k, v) :: fs =>
    "\"" ++ k ++ "\": " ++ dumpsInd lvl v ++ "," ++ nlIndent lvl
      ++ dumpsIndObj lvl fs

end

/-- A grid position as the JSON array the source serializes it to. -/
def posToJson (p : Pos) : Json := .arr [.num p.1, .num p.2]

/-- A taxi dict in its insertion order: the input keys `location`, `fuel`,
`capacity`, then the `MAX_FUEL` and `passengers_on_taxi` keys added by
`__init__`. -/
def taxiToJson (t : Taxi) : Json :=
  .obj [("location", posToJson t.location), ("fuel", .num t.fuel),
        ("capacity", .num t.capacity), ("MAX_FUEL", .num t.MAX_FUEL),
        ("passengers_on_taxi", .arr (t.passengers_on_taxi.map Json.str))]

/-- A passenger dict in its insertion order: the input keys `location`,
`destination`, then `is_picked`, `is_arrived`, `current_location`. -/
def passengerToJson (q : Passenger) : Json :=
  .obj [("location", posToJson q.location),
        ("destination", posToJson q.destination),
        ("is_picked", .bool q.is_picked), ("is_arrived", .bool q.is_arrived),
        ("current_location", posToJson q.current_location)]

/-- The state dict in its insertion order (`__init__`, lines 40-46). -/
def stateToJson (s : State) : Json :=
  .obj [("taxis", .obj (s.taxis.map fun nt => (nt.1, taxiToJson nt.2))),
        ("passengers",
          .obj (s.passengers.map fun np => (np.1, passengerToJson np.2))),
        ("num_of_undelivered", .num s.num_of_undelivered),
        ("num_of_unpicked", .num s.num_of_unpicked),
        ("num_of_picked_undelivered", .num s.num_of_picked_undelivered)]

/-- C8 (code bug): applying `('wait', taxi)` leaves the structured state
unchanged, but the successor string `result` returns (compact
`json.dumps`) differs from the string `__init__` produced for the same
configuration (`json.dumps(..., indent=3)`), so the revisited initial
configuration is not represented identically and graph search does not
recognize it as the same state. -/
theorem C8_wait_serialization_mismatch :
    apply_taxi_action (initial_state exTaxiOne exPassOne)
        (TaxiAction.wait "t1") = initial_state exTaxiOne exPassOne
    ∧ TaxiAction.wait "t1" ∈ taxi_atomic_actions exGrid
        (initial_state exTaxiOne exPassOne) "t1" exTaxiRec
    ∧ dumps (stateToJson (apply_taxi_action
        (initial_state exTaxiOne exPassOne) (TaxiAction.wait "t1")))
      ≠ dumpsInd 0 (stateToJson (initial_state exTaxiOne exPassOne)) :=
  ⟨rfl, by decide, by decide⟩

end TaxiProblem
